import Mathlib

/-!
Verification development for the KzAlloc concurrent memory allocator.

The definitions below are a shallow embedding of the C++ sources:
`Common.h` (constants, `SizeUtils`), `PageMap.h` (radix page map),
`ThreadCache.h` (`FreeList`, `ThreadCache`), `CentralCache.cpp`,
`PageCache.h` / `PageCache.cpp` (`PageCacheShard`, `PageHeap`), and
`ConcurrentAlloc.h` (facade `malloc`).  Machine `size_t` arithmetic is
modelled on `Nat`, with explicit `% 2 ^ 64` at the places where
wrap-around could matter.  The theorems at the end of the file settle
the stated claims about the allocator.
-/

namespace KzAlloc

/-- `PAGE_SHIFT = 13` from Common.h. -/
def PAGE_SHIFT : Nat := 13

/-- `PAGE_SIZE = 1 << PAGE_SHIFT` (8 KiB) from Common.h. -/
def PAGE_SIZE : Nat := 1 <<< PAGE_SHIFT

/-- `PAGE_ROUND_UP_NUM = PAGE_SIZE - 1` from Common.h. -/
def PAGE_ROUND_UP_NUM : Nat := PAGE_SIZE - 1

/-- `MAX_NFREELISTS = 264` from Common.h (number of size classes). -/
def MAX_NFREELISTS : Nat := 264

/-- `MAX_BYTES = 256 * 1024` from Common.h. -/
def MAX_BYTES : Nat := 256 * 1024

/-- `NPAGES = 129` from PageCache.h (spans of 1..128 pages live in the array). -/
def NPAGES : Nat := 129

/-- 64-bit modulus used to model `size_t` / `PAGE_ID` wrap-around. -/
def W64 : Nat := 2 ^ 64

/-- `size_t` subtraction with 64-bit wrap-around (`a - b` in C++). -/
def wsub (a b : Nat) : Nat := (a + (W64 - b % W64)) % W64

/-- `size_t` addition with 64-bit wrap-around (`a + b` in C++). -/
def wadd (a b : Nat) : Nat := (a + b) % W64

/-- `SizeUtils::detail::_CalculateNextBlockSize` from Common.h: given the
current class size, the size of the next class per the alignment tiers. -/
def calcNextBlockSize (cur : Nat) : Nat :=
  if cur < 128 then cur + 8
  else if cur < 1024 then cur + 16
  else if cur < 8 * 1024 then cur + 128
  else if cur < 64 * 1024 then cur + 512
  else cur + 8 * 1024

/-- The `(index, block_size)` scan state of `SizeUtils::Init` after the
loop has processed the sizes `1 .. i`.  The loop starts with `index = 0`
and `block_size = 8` and bumps the state whenever the size exceeds the
current block size. -/
def sizeScan : Nat → Nat × Nat
  | 0 => (0, 8)
  | i + 1 =>
    let s := sizeScan i
    if i + 1 > s.2 then (s.1 + 1, calcNextBlockSize s.2) else s

/-- `_size_lookup_table[n]` from Common.h: the class index recorded for a
request of `n` bytes.  Entry `n ≥ 1` is written during iteration `n` of
the `Init` loop with the current `index`; entry `0` is set to `0`
explicitly, which agrees with `(sizeScan 0).1`.  Meaningful for
`n ≤ MAX_BYTES` (the extent of the C++ array). -/
def size_lookup_table (n : Nat) : Nat := (sizeScan n).1

/-- The `_class_to_size` array (modelled as a zero-initialized function)
after the `Init` loop has processed the sizes `1 .. i`.  Each iteration
stores the current `block_size` at the current `index` when
`index < MAX_NFREELISTS`. -/
def classTable : Nat → Nat → Nat
  | 0 => fun _ => 0
  | i + 1 =>
    if (sizeScan (i + 1)).1 < MAX_NFREELISTS then
      fun c => if c = (sizeScan (i + 1)).1 then (sizeScan (i + 1)).2 else classTable i c
    else classTable i

/-- `_class_to_size[c]` from Common.h after `SizeUtils::Init` has run. -/
def class_to_size (c : Nat) : Nat := classTable MAX_BYTES c

/-- `SizeUtils::detail::RoundUpToPage` from Common.h:
`(size + PAGE_ROUND_UP_NUM) & ~PAGE_ROUND_UP_NUM` on `size_t`. -/
def roundUpToPage (size : Nat) : Nat :=
  ((size + PAGE_ROUND_UP_NUM) % W64) / PAGE_SIZE * PAGE_SIZE

/-- `SizeUtils::Index` from Common.h: the bucket number of a request. -/
def index (size : Nat) : Nat := size_lookup_table size

/-- `SizeUtils::RoundUp` from Common.h. -/
def roundUp (size : Nat) : Nat :=
  if size > MAX_BYTES then roundUpToPage size else class_to_size (index size)

/-- `SizeUtils::NumMoveSize` from Common.h:
`clamp(MAX_BYTES / class_to_size[index], 2, 32768)`. -/
def numMoveSize (i : Nat) : Nat :=
  let num := MAX_BYTES / class_to_size i
  let num := if num < 2 then 2 else num
  if num > 32768 then 32768 else num

/-- Closed form for the block size of class `c`: iterating
`calcNextBlockSize` from the initial block size 8. -/
def blockSizeOf : Nat → Nat
  | 0 => 8
  | c + 1 => calcNextBlockSize (blockSizeOf c)

theorem calcNextBlockSize_ge (b : Nat) : b + 8 ≤ calcNextBlockSize b := by
  unfold calcNextBlockSize
  split_ifs <;> omega

theorem blockSizeOf_lt_succ (c : Nat) : blockSizeOf c < blockSizeOf (c + 1) := by
  have h := calcNextBlockSize_ge (blockSizeOf c)
  simp only [blockSizeOf]
  omega

theorem blockSizeOf_strictMono : StrictMono blockSizeOf :=
  strictMono_nat_of_lt_succ blockSizeOf_lt_succ

theorem blockSizeOf_pos (c : Nat) : 8 ≤ blockSizeOf c := by
  induction c with
  | zero => simp [blockSizeOf]
  | succ c ih =>
    have := blockSizeOf_lt_succ c
    omega

theorem sizeScan_bs (i : Nat) : (sizeScan i).2 = blockSizeOf (sizeScan i).1 := by
  induction i with
  | zero => simp [sizeScan, blockSizeOf]
  | succ i ih =>
    simp only [sizeScan]
    split
    · simp [blockSizeOf, ← ih]
    · exact ih

theorem sizeScan_le (i : Nat) : i ≤ (sizeScan i).2 := by
  induction i with
  | zero => simp [sizeScan]
  | succ i ih =>
    simp only [sizeScan]
    split
    · rename_i h
      have := calcNextBlockSize_ge (sizeScan i).2
      omega
    · rename_i h
      omega

theorem sizeScan_lower (i : Nat) (h : 1 ≤ i) :
    (sizeScan i).1 = 0 ∨ blockSizeOf ((sizeScan i).1 - 1) < i := by
  induction i with
  | zero => omega
  | succ i ih =>
    by_cases hi : 1 ≤ i
    · rcases ih hi with h0 | hlt
      · simp only [sizeScan]
        split
        · rename_i hc
          right
          have hbs := sizeScan_bs i
          rw [h0] at hbs
          simp only [h0, Nat.add_sub_cancel]
          rw [← hbs]
          omega
        · left; exact h0
      · simp only [sizeScan]
        split
        · rename_i hc
          right
          have hbs := sizeScan_bs i
          simp only [Nat.add_sub_cancel]
          rw [← hbs]
          omega
        · right; omega
    · have hi0 : i = 0 := by omega
      subst hi0
      left
      simp [sizeScan]

theorem sizeScan_idx_succ_le (i : Nat) :
    (sizeScan (i + 1)).1 ≤ (sizeScan i).1 + 1 := by
  simp only [sizeScan]
  split <;> omega

theorem sizeScan_idx_le_succ (i : Nat) :
    (sizeScan i).1 ≤ (sizeScan (i + 1)).1 := by
  simp only [sizeScan]
  split <;> omega

theorem sizeScan_idx_mono : Monotone (fun i => (sizeScan i).1) :=
  monotone_nat_of_le_succ sizeScan_idx_le_succ

theorem classTable_succ (i c : Nat) :
    classTable (i + 1) c =
      if (sizeScan (i + 1)).1 < MAX_NFREELISTS then
        (if c = (sizeScan (i + 1)).1 then (sizeScan (i + 1)).2 else classTable i c)
      else classTable i c := by
  show (if (sizeScan (i + 1)).1 < MAX_NFREELISTS then
        fun c => if c = (sizeScan (i + 1)).1 then (sizeScan (i + 1)).2 else classTable i c
      else classTable i) c = _
  split <;> rfl

theorem classTable_spec (i c : Nat) :
    classTable i c =
      if 1 ≤ i ∧ c ≤ (sizeScan i).1 ∧ c < MAX_NFREELISTS
      then blockSizeOf c else 0 := by
  induction i with
  | zero => simp [classTable]
  | succ i ih =>
    have hmono := sizeScan_idx_le_succ i
    have hstep := sizeScan_idx_succ_le i
    have hbs := sizeScan_bs (i + 1)
    have hs1 : (sizeScan 1).1 = 0 := by simp [sizeScan]
    have hs0 : (sizeScan 0).1 = 0 := by simp [sizeScan]
    rw [classTable_succ]
    by_cases hlt : (sizeScan (i + 1)).1 < MAX_NFREELISTS
    · rw [if_pos hlt]
      by_cases hc : c = (sizeScan (i + 1)).1
      · subst hc
        rw [if_pos rfl, hbs, if_pos ⟨by omega, le_refl _, hlt⟩]
      · rw [if_neg hc, ih]
        by_cases h1 : c ≤ (sizeScan i).1
        · have h2 : c ≤ (sizeScan (i + 1)).1 := le_trans h1 hmono
          by_cases h3 : c < MAX_NFREELISTS
          · by_cases h4 : 1 ≤ i
            · rw [if_pos ⟨h4, h1, h3⟩, if_pos ⟨by omega, h2, h3⟩]
            · -- i = 0: sizeScan 0 = (0, 8) and sizeScan 1 = (0, 8), so c ≤ 0
              have hi0 : i = 0 := by omega
              subst hi0
              rw [hs1] at hc
              rw [hs0] at h1
              omega
          · rw [if_neg (by tauto), if_neg (by tauto)]
        · have h2 : ¬ c ≤ (sizeScan (i + 1)).1 := by omega
          rw [if_neg (by tauto), if_neg (by tauto)]
    · rw [if_neg hlt, ih]
      by_cases h1 : c ≤ (sizeScan i).1 ∧ c < MAX_NFREELISTS
      · have h2 : c ≤ (sizeScan (i + 1)).1 := le_trans h1.1 hmono
        by_cases h4 : 1 ≤ i
        · rw [if_pos ⟨h4, h1.1, h1.2⟩, if_pos ⟨by omega, h2, h1.2⟩]
        · have hi0 : i = 0 := by omega
          subst hi0
          rw [hs1] at hlt
          simp [MAX_NFREELISTS] at hlt
      · by_cases h2 : c ≤ (sizeScan (i + 1)).1 ∧ c < MAX_NFREELISTS
        · exfalso
          -- then c > (sizeScan i).1, so c ≥ (sizeScan (i+1)).1 ≥ MAX_NFREELISTS
          have : ¬ c ≤ (sizeScan i).1 := by tauto
          omega
        · rw [if_neg (by tauto), if_neg (by tauto)]

theorem blockSizeOf_tier1 (k : Nat) (hk : k ≤ 15) : blockSizeOf k = 8 * (k + 1) := by
  induction k with
  | zero => simp [blockSizeOf]
  | succ k ih =>
    have h8 : 8 * (k + 1) < 128 := by omega
    rw [blockSizeOf, ih (by omega), calcNextBlockSize, if_pos h8]
    omega

theorem blockSizeOf_tier2 (k : Nat) (hk : k ≤ 56) :
    blockSizeOf (15 + k) = 128 + 16 * k := by
  induction k with
  | zero => simpa using blockSizeOf_tier1 15 (by omega)
  | succ k ih =>
    have he : 15 + (k + 1) = (15 + k) + 1 := by omega
    rw [he, blockSizeOf, ih (by omega), calcNextBlockSize]
    rw [if_neg (by omega), if_pos (by omega)]
    omega

theorem blockSizeOf_tier3 (k : Nat) (hk : k ≤ 56) :
    blockSizeOf (71 + k) = 1024 + 128 * k := by
  induction k with
  | zero => simpa using blockSizeOf_tier2 56 (by omega)
  | succ k ih =>
    have he : 71 + (k + 1) = (71 + k) + 1 := by omega
    rw [he, blockSizeOf, ih (by omega), calcNextBlockSize]
    rw [if_neg (by omega), if_neg (by omega), if_pos (by omega)]
    omega

theorem blockSizeOf_tier4 (k : Nat) (hk : k ≤ 112) :
    blockSizeOf (127 + k) = 8192 + 512 * k := by
  induction k with
  | zero => simpa using blockSizeOf_tier3 56 (by omega)
  | succ k ih =>
    have he : 127 + (k + 1) = (127 + k) + 1 := by omega
    rw [he, blockSizeOf, ih (by omega), calcNextBlockSize]
    rw [if_neg (by omega), if_neg (by omega), if_neg (by omega), if_pos (by omega)]
    omega

theorem blockSizeOf_tier5 (k : Nat) :
    blockSizeOf (239 + k) = 65536 + 8192 * k := by
  induction k with
  | zero => simpa using blockSizeOf_tier4 112 (by omega)
  | succ k ih =>
    have he : 239 + (k + 1) = (239 + k) + 1 := by omega
    rw [he, blockSizeOf, ih, calcNextBlockSize]
    rw [if_neg (by omega), if_neg (by omega), if_neg (by omega), if_neg (by omega)]
    omega

theorem blockSizeOf_262 : blockSizeOf 262 = 253952 := by
  simpa using blockSizeOf_tier5 23

theorem blockSizeOf_263 : blockSizeOf 263 = 262144 := by
  simpa using blockSizeOf_tier5 24

theorem sizeScan_final_idx : (sizeScan MAX_BYTES).1 = 263 := by
  have hle := sizeScan_le MAX_BYTES
  have hbs := sizeScan_bs MAX_BYTES
  have hlow := sizeScan_lower MAX_BYTES (by norm_num [MAX_BYTES])
  have hmax : MAX_BYTES = 262144 := by norm_num [MAX_BYTES]
  -- lower bound: the index is at least 263
  have h1 : 263 ≤ (sizeScan MAX_BYTES).1 := by
    by_contra hcon
    have h262 : (sizeScan MAX_BYTES).1 ≤ 262 := by omega
    have := blockSizeOf_strictMono.monotone h262
    rw [blockSizeOf_262] at this
    rw [hbs] at hle
    omega
  -- upper bound: the index is at most 263
  rcases hlow with h0 | hlt
  · omega
  · have : blockSizeOf ((sizeScan MAX_BYTES).1 - 1) < blockSizeOf 263 := by
      rw [blockSizeOf_263]; omega
    have := blockSizeOf_strictMono.lt_iff_lt.mp this
    omega

theorem class_to_size_eq (c : Nat) (hc : c < MAX_NFREELISTS) :
    class_to_size c = blockSizeOf c := by
  unfold class_to_size
  rw [classTable_spec, sizeScan_final_idx]
  rw [if_pos ⟨by norm_num [MAX_BYTES], by simp [MAX_NFREELISTS] at hc; omega, hc⟩]

theorem blockSizeOf_le_max (c : Nat) (hc : c ≤ 263) : blockSizeOf c ≤ MAX_BYTES := by
  have := blockSizeOf_strictMono.monotone hc
  rw [blockSizeOf_263] at this
  norm_num [MAX_BYTES]
  omega

theorem index_mono {m n : Nat} (h : m ≤ n) : index m ≤ index n :=
  sizeScan_idx_mono h

theorem index_le_263 (n : Nat) (hn : n ≤ MAX_BYTES) : index n ≤ 263 := by
  have h := sizeScan_idx_mono hn
  simp only at h
  rw [sizeScan_final_idx] at h
  exact h

/-- Core round-trip fact: looking up the size of class `c` maps back to
class `c`. -/
theorem index_class_to_size (c : Nat) (hc : c < MAX_NFREELISTS) :
    index (class_to_size c) = c := by
  rw [class_to_size_eq c hc]
  unfold index size_lookup_table
  set n := blockSizeOf c with hn
  have hn8 : 8 ≤ n := blockSizeOf_pos c
  have hle := sizeScan_le n
  have hbs := sizeScan_bs n
  have hlow := sizeScan_lower n (by omega)
  -- upper direction: c ≤ idx
  have h1 : n ≤ blockSizeOf (sizeScan n).1 := by rw [← hbs]; exact hle
  have hc_le : c ≤ (sizeScan n).1 := by
    by_contra hcon
    have : (sizeScan n).1 < c := by omega
    have := blockSizeOf_strictMono this
    omega
  rcases hlow with h0 | hlt
  · omega
  · have : (sizeScan n).1 - 1 < c := by
      by_contra hcon
      have hcc : c ≤ (sizeScan n).1 - 1 := by omega
      have := blockSizeOf_strictMono.monotone hcc
      omega
    omega

theorem roundUp_small (n : Nat) (hn : n ≤ MAX_BYTES) :
    roundUp n = class_to_size (index n) := by
  unfold roundUp
  rw [if_neg (by omega)]

/-- For `1 ≤ n ≤ MAX_BYTES`, `roundUp n` is the block size of the class
of `n`, which again lies in `[8, MAX_BYTES]`. -/
theorem roundUp_eq_blockSizeOf (n : Nat) (hn : n ≤ MAX_BYTES) :
    roundUp n = blockSizeOf (index n) := by
  rw [roundUp_small n hn]
  have h263 := index_le_263 n hn
  exact class_to_size_eq _ (by unfold MAX_NFREELISTS; omega)

theorem roundUp_idem (n : Nat) (hn : n ≤ MAX_BYTES) :
    roundUp (roundUp n) = roundUp n := by
  have h263 := index_le_263 n hn
  rw [roundUp_eq_blockSizeOf n hn]
  have hle : blockSizeOf (index n) ≤ MAX_BYTES := blockSizeOf_le_max _ h263
  rw [roundUp_small _ hle]
  have hcs : class_to_size (index n) = blockSizeOf (index n) :=
    class_to_size_eq _ (by unfold MAX_NFREELISTS; omega)
  rw [← hcs, index_class_to_size _ (by unfold MAX_NFREELISTS; omega), hcs]

/-! ## RadixPageMap (PageMap.h, 64-bit three-level configuration)

The 64-bit radix tree has root/internal/leaf index widths (12, 12, 11).
A tree node is modelled as a zero-initialized array of optional children
(`none` models a null pointer); leaf slots hold the stored `Span*`
(modelled as a span identifier). -/

/-- Leaf node: `Span* values[1 << 11]` (null = `none`). -/
def PageMapLeaf : Type := Nat → Option Nat

/-- Internal node: `PageMapLeaf* leafs[1 << 12]`. -/
def PageMapInternal : Type := Nat → Option PageMapLeaf

/-- The radix map root: `PageMapInternal* root[1 << 12]`. -/
structure PageMapT where
  root : Nat → Option PageMapInternal

/-- The freshly constructed `PageMap` (`memset(_root, 0, ...)`). -/
def pageMapEmpty : PageMapT := ⟨fun _ => none⟩

/-- The root index of a page id: `id >> (BITS_INTERNAL + BITS_LEAF)`. -/
def pmIRoot (id : Nat) : Nat := id >>> (12 + 11)

/-- The internal index: `(id >> BITS_LEAF) & (LEN_INTERNAL - 1)`
(masking with `2^12 - 1` equals `% 2^12`). -/
def pmIInternal (id : Nat) : Nat := (id >>> 11) % (1 <<< 12)

/-- The leaf index: `id & (LEN_LEAF - 1)` (equals `% 2^11`). -/
def pmILeaf (id : Nat) : Nat := id % (1 <<< 11)

/-- `PageMap::get` from PageMap.h (64-bit branch): pure reads, returning
null when the root index is out of range or an intermediate node is
absent, and the leaf slot value otherwise. -/
def pmGet (m : PageMapT) (id : Nat) : Option Nat :=
  if pmIRoot id ≥ (1 <<< 12) then none
  else
    match m.root (pmIRoot id) with
    | none => none
    | some rootNode =>
      match rootNode (pmIInternal id) with
      | none => none
      | some leafNode => leafNode (pmILeaf id)

/-- The internal node reachable from the root for `id` (`EnsureRoot`
makes a zero-filled node when it is absent). -/
def pmOldInternal (m : PageMapT) (id : Nat) : PageMapInternal :=
  (m.root (pmIRoot id)).getD (fun _ => none)

/-- The leaf node for `id` (`EnsureInternal` makes a zero-filled node
when it is absent). -/
def pmOldLeaf (m : PageMapT) (id : Nat) : PageMapLeaf :=
  (pmOldInternal m id (pmIInternal id)).getD (fun _ => none)

/-- The leaf node after the write `values[iLeaf] = span`. -/
def pmNewLeaf (m : PageMapT) (id span : Nat) : PageMapLeaf :=
  fun j => if j = pmILeaf id then some span else pmOldLeaf m id j

/-- The internal node after (possibly) publishing the new leaf. -/
def pmNewInternal (m : PageMapT) (id span : Nat) : PageMapInternal :=
  fun j => if j = pmIInternal id then some (pmNewLeaf m id span) else pmOldInternal m id j

/-- `PageMap::set` from PageMap.h (64-bit branch): ensure the two levels
of intermediate nodes exist (fresh nodes are zero-filled), then store the
span at the leaf slot.  For `iRoot` out of range, `EnsureRoot` returns
without allocating and the subsequent dereference is undefined behaviour
in C++; the model makes it a no-op, and the theorems below only quantify
over ids inside the 35-bit page-id space. -/
def pmSet (m : PageMapT) (id : Nat) (span : Nat) : PageMapT :=
  if pmIRoot id ≥ (1 <<< 12) then m
  else ⟨fun j => if j = pmIRoot id then some (pmNewInternal m id span) else m.root j⟩

/-- Replay of a sequence of `set` operations from the empty map. -/
def pmApply (ops : List (Nat × Nat)) : PageMapT :=
  ops.foldl (fun m op => pmSet m op.1 op.2) pageMapEmpty

/-- The specification-level map: the last value written for a key, if any
(`find?` on the reversed operation list). -/
def lastWrite (ops : List (Nat × Nat)) (id : Nat) : Option Nat :=
  (ops.reverse.find? (fun op => op.1 == id)).map (fun op => op.2)

theorem pmIRoot_lt (id : Nat) (h : id < 2 ^ 35) : ¬ pmIRoot id ≥ 1 <<< 12 := by
  unfold pmIRoot
  simp only [Nat.shiftRight_eq_div_pow, Nat.shiftLeft_eq, ge_iff_le, not_le]
  norm_num
  omega

theorem pmIRoot_ge (id : Nat) (h : 2 ^ 35 ≤ id) : pmIRoot id ≥ 1 <<< 12 := by
  unfold pmIRoot
  simp only [Nat.shiftRight_eq_div_pow, Nat.shiftLeft_eq, ge_iff_le]
  norm_num
  omega

/-- The three radix indices determine the page id. -/
theorem pm_index_inj (id id' : Nat) (h23 : pmIRoot id = pmIRoot id')
    (h12 : pmIInternal id = pmIInternal id') (h11 : pmILeaf id = pmILeaf id') :
    id = id' := by
  simp only [pmIRoot, pmIInternal, pmILeaf, Nat.shiftRight_eq_div_pow,
    Nat.shiftLeft_eq] at h23 h12 h11
  norm_num at h23 h12 h11
  omega

theorem pmGet_out_of_range (m : PageMapT) (id : Nat) (h : 2 ^ 35 ≤ id) :
    pmGet m id = none := by
  unfold pmGet
  rw [if_pos (pmIRoot_ge id h)]

theorem pmSet_root_apply (m : PageMapT) (id span j : Nat)
    (h : ¬ pmIRoot id ≥ 1 <<< 12) :
    (pmSet m id span).root j =
      if j = pmIRoot id then some (pmNewInternal m id span) else m.root j := by
  unfold pmSet
  rw [if_neg h]

theorem pmNewInternal_same (m : PageMapT) (id span : Nat) :
    pmNewInternal m id span (pmIInternal id) = some (pmNewLeaf m id span) := by
  simp [pmNewInternal]

theorem pmNewInternal_other (m : PageMapT) (id span j : Nat)
    (h : j ≠ pmIInternal id) :
    pmNewInternal m id span j = pmOldInternal m id j := by
  simp [pmNewInternal, h]

theorem pmNewLeaf_same (m : PageMapT) (id span : Nat) :
    pmNewLeaf m id span (pmILeaf id) = some span := by
  simp [pmNewLeaf]

theorem pmNewLeaf_other (m : PageMapT) (id span j : Nat) (h : j ≠ pmILeaf id) :
    pmNewLeaf m id span j = pmOldLeaf m id j := by
  simp [pmNewLeaf, h]

theorem pmGet_set_same (m : PageMapT) (id span : Nat) (h : id < 2 ^ 35) :
    pmGet (pmSet m id span) id = some span := by
  have hroot := pmIRoot_lt id h
  unfold pmGet
  rw [if_neg hroot, pmSet_root_apply m id span _ hroot, if_pos rfl]
  dsimp only
  rw [pmNewInternal_same]
  dsimp only
  rw [pmNewLeaf_same]

theorem pmGet_set_other (m : PageMapT) (id span id' : Nat)
    (h : id < 2 ^ 35) (hne : id' ≠ id) :
    pmGet (pmSet m id span) id' = pmGet m id' := by
  have hroot := pmIRoot_lt id h
  unfold pmGet
  by_cases hr : pmIRoot id' ≥ 1 <<< 12
  · rw [if_pos hr, if_pos hr]
  · rw [if_neg hr, if_neg hr, pmSet_root_apply m id span _ hroot]
    by_cases h1 : pmIRoot id' = pmIRoot id
    · rw [if_pos h1, h1]
      by_cases h2 : pmIInternal id' = pmIInternal id
      · rw [h2]
        dsimp only
        rw [pmNewInternal_same]
        have h3 : pmILeaf id' ≠ pmILeaf id := by
          intro h3
          exact hne (pm_index_inj id' id h1 h2 h3)
        dsimp only
        rw [pmNewLeaf_other m id span _ h3]
        unfold pmOldLeaf pmOldInternal
        cases hm : m.root (pmIRoot id) with
        | none => simp [hm]
        | some rootNode =>
          simp only [hm, Option.getD_some]
          cases hn : rootNode (pmIInternal id) <;> simp [hn]
      · dsimp only
        rw [pmNewInternal_other m id span _ h2]
        unfold pmOldInternal
        cases hm : m.root (pmIRoot id) <;> simp [hm]
    · rw [if_neg h1]

theorem pmGet_empty (id : Nat) : pmGet pageMapEmpty id = none := by
  unfold pmGet pageMapEmpty
  simp

/-- Replaying a sequence of in-range `set`s realizes exactly the
last-write-wins map, for every page id. -/
theorem pmApply_lastWrite (ops : List (Nat × Nat))
    (hops : ∀ p ∈ ops, p.1 < 2 ^ 35) (id : Nat) :
    pmGet (pmApply ops) id = lastWrite ops id := by
  induction ops using List.reverseRecOn with
  | nil => simp [pmApply, lastWrite, pmGet_empty]
  | append_singleton ops p ih =>
    have hp : p.1 < 2 ^ 35 := hops p (by simp)
    have happ : pmApply (ops ++ [p]) = pmSet (pmApply ops) p.1 p.2 := by
      unfold pmApply
      rw [List.foldl_append]
      rfl
    rw [happ]
    by_cases hid : id = p.1
    · subst hid
      rw [pmGet_set_same _ _ _ hp]
      unfold lastWrite
      simp
    · rw [pmGet_set_other _ _ _ _ hp hid,
        ih (fun q hq => hops q (List.mem_append_left _ hq))]
      unfold lastWrite
      have hne : (p.1 == id) = false := by
        simp
        omega
      simp [List.find?, hne]

/-! ## ThreadCache FreeList (ThreadCache.h), pointer-level model

The free list stores the "next" pointer in the first machine word of
each free object (`NextObj`).  Memory is modelled as the next-pointer
word of every address (`0` models `nullptr`).  The `FreeList` keeps
`_head`, `_tail` and `_size` exactly as in ThreadCache.h; `_maxSize` and
`_maxNum` do not participate in the chain bookkeeping and live in the
list-level ThreadCache model further below. -/

def Mem : Type := Nat → Nat

/-- `FreeList` bookkeeping fields from ThreadCache.h. -/
structure FreeListState where
  head : Nat := 0
  tail : Nat := 0
  size : Nat := 0

/-- `FreeList::Push`: head-insert `obj`, updating `_tail` when the list
was empty and incrementing `_size`. -/
def flPush (m : Mem) (fl : FreeListState) (obj : Nat) : Mem × FreeListState :=
  let m' : Mem := fun a => if a = obj then fl.head else m a
  let tail' := if fl.tail = 0 then obj else fl.tail
  (m', { head := obj, tail := tail', size := fl.size + 1 })

/-- `FreeList::Pop`: head-pop, clearing `_tail` when the list becomes
empty and decrementing `_size`; returns the popped object. -/
def flPop (m : Mem) (fl : FreeListState) : Nat × Mem × FreeListState :=
  let obj := fl.head
  let head' := m obj
  let tail' := if head' = 0 then 0 else fl.tail
  (obj, m, { head := head', tail := tail', size := fl.size - 1 })

/-- `FreeList::PushRange`: splice the chain `start .. endp` of `n` nodes
onto the front (`NextObj(end) = _head`). -/
def flPushRange (m : Mem) (fl : FreeListState) (start endp n : Nat) :
    Mem × FreeListState :=
  let m' : Mem := fun a => if a = endp then fl.head else m a
  let tail' := if fl.tail = 0 then endp else fl.tail
  (m', { head := start, tail := tail', size := fl.size + n })

/-- Walking `k` `NextObj` steps from `a` (the `for` loop of `PopRange`). -/
def flStep (m : Mem) : Nat → Nat → Nat
  | a, 0 => a
  | a, k + 1 => flStep m (m a) k

/-- `FreeList::PopRange`: walk `n - 1` steps to find the new tail of the
popped segment, detach it (null-terminate), and return `(start, endp)`. -/
def flPopRange (m : Mem) (fl : FreeListState) (n : Nat) :
    (Nat × Nat) × Mem × FreeListState :=
  let start := fl.head
  let endp := flStep m fl.head (n - 1)
  let head' := m endp
  let m' : Mem := fun a => if a = endp then 0 else m a
  let tail' := if head' = 0 then 0 else fl.tail
  ((start, endp), m', { head := head', tail := tail', size := fl.size - n })

/-- `IsChain m a l`: from address `a`, following `NextObj` pointers in
`m` visits exactly the nodes of `l` and ends at null. -/
inductive IsChain (m : Mem) : Nat → List Nat → Prop
  | nil : IsChain m 0 []
  | cons {a : Nat} {l : List Nat} (ha : a ≠ 0) (h : IsChain m (m a) l) :
      IsChain m a (a :: l)

/-- The last element of a chain, `0` for the empty chain (the value
`_tail` must hold). -/
def lastOr0 (l : List Nat) : Nat := l.getLast?.getD 0

/-- The FreeList bookkeeping invariant: `_size` counts the nodes
reachable from `_head` and `_tail` is the last reachable node (null
exactly when the list is empty). -/
def FLInv (m : Mem) (fl : FreeListState) : Prop :=
  ∃ l, IsChain m fl.head l ∧ fl.size = l.length ∧ fl.tail = lastOr0 l

/-- `obj` is one of the nodes reachable from `a`. -/
def flReachable (m : Mem) (a obj : Nat) : Prop :=
  ∃ l, IsChain m a l ∧ obj ∈ l

theorem isChain_zero (m : Mem) (l : List Nat) (h : IsChain m 0 l) : l = [] := by
  cases h with
  | nil => rfl
  | cons ha _ => exact absurd rfl ha

theorem isChain_det (m : Mem) (a : Nat) (l₁ l₂ : List Nat)
    (h₁ : IsChain m a l₁) (h₂ : IsChain m a l₂) : l₁ = l₂ := by
  induction h₁ generalizing l₂ with
  | nil => exact (isChain_zero m l₂ h₂).symm
  | cons ha h ih =>
    cases h₂ with
    | nil => exact absurd rfl ha
    | cons ha' h' => rw [ih _ h']

theorem isChain_ne_zero (m : Mem) (a : Nat) (l : List Nat)
    (h : IsChain m a l) : ∀ x ∈ l, x ≠ 0 := by
  induction h with
  | nil => simp
  | cons ha h ih =>
    intro x hx
    rcases List.mem_cons.mp hx with rfl | hx
    · exact ha
    · exact ih x hx

theorem lastOr0_mem (l : List Nat) (h : l ≠ []) : lastOr0 l ∈ l := by
  unfold lastOr0
  rw [List.getLast?_eq_getLast_of_ne_nil h, Option.getD_some]
  exact List.getLast_mem h

theorem lastOr0_cons_ne (a : Nat) (l : List Nat) (h : l ≠ []) :
    lastOr0 (a :: l) = lastOr0 l := by
  unfold lastOr0
  rw [List.getLast?_cons, List.getLast?_eq_getLast_of_ne_nil h]
  simp

theorem lastOr0_eq_zero_iff (m : Mem) (a : Nat) (l : List Nat)
    (h : IsChain m a l) : lastOr0 l = 0 ↔ l = [] := by
  cases l with
  | nil => simp [lastOr0]
  | cons b t =>
    simp only [List.cons_ne_nil, iff_false]
    intro hz
    have hmem := lastOr0_mem (b :: t) (by simp)
    have := isChain_ne_zero m a _ h _ hmem
    exact this hz

theorem isChain_mem_suffix (m : Mem) (b : Nat) (l : List Nat)
    (h : IsChain m b l) (a : Nat) (ha : a ∈ l) :
    ∃ t, IsChain m a (a :: t) ∧ t.length + 1 ≤ l.length := by
  induction h with
  | nil => simp at ha
  | cons hb hch ih =>
    rename_i b' l'
    rcases List.mem_cons.mp ha with rfl | ha'
    · exact ⟨l', IsChain.cons hb hch, by simp⟩
    · obtain ⟨t, ht, hlen⟩ := ih ha'
      exact ⟨t, ht, by simp; omega⟩

theorem isChain_nodup (m : Mem) (a : Nat) (l : List Nat)
    (h : IsChain m a l) : l.Nodup := by
  induction h with
  | nil => simp
  | cons ha hch ih =>
    rename_i a' l'
    refine List.nodup_cons.mpr ⟨?_, ih⟩
    intro hmem
    obtain ⟨t, ht, hlen⟩ := isChain_mem_suffix m _ _ hch _ hmem
    have := isChain_det m _ _ _ (IsChain.cons ha hch) ht
    have : l'.length = t.length := by
      have := congrArg List.length this
      simpa using this
    omega

theorem isChain_congr (m m' : Mem) (a : Nat) (l : List Nat)
    (h : IsChain m a l) (hagree : ∀ x ∈ l, m' x = m x) : IsChain m' a l := by
  induction h with
  | nil => exact IsChain.nil
  | cons ha hch ih =>
    rename_i a' l'
    refine IsChain.cons ha ?_
    rw [hagree a' (by simp)]
    exact ih (fun x hx => hagree x (by simp [hx]))

theorem flPush_inv (m : Mem) (fl : FreeListState) (obj : Nat) (l : List Nat)
    (hch : IsChain m fl.head l) (hsz : fl.size = l.length)
    (htl : fl.tail = lastOr0 l) (hobj : obj ≠ 0) (hmem : obj ∉ l) :
    FLInv (flPush m fl obj).1 (flPush m fl obj).2 := by
  refine ⟨obj :: l, ?_, by simp [flPush, hsz], ?_⟩
  · refine IsChain.cons hobj ?_
    show IsChain _ (if obj = obj then fl.head else m obj) l
    rw [if_pos rfl]
    exact isChain_congr m _ _ _ hch (fun x hx => by
      have : x ≠ obj := fun he => hmem (he ▸ hx)
      simp [flPush, this])
  · show (if fl.tail = 0 then obj else fl.tail) = lastOr0 (obj :: l)
    by_cases h0 : fl.tail = 0
    · have hl : l = [] := by
        rw [htl] at h0
        exact (lastOr0_eq_zero_iff m fl.head l hch).mp h0
      subst hl
      simp [h0, lastOr0]
    · have hl : l ≠ [] := by
        intro he
        subst he
        simp [lastOr0] at htl
        exact h0 htl
      rw [if_neg h0, lastOr0_cons_ne _ _ hl, htl]

theorem isChain_inv_ne (m : Mem) (a : Nat) (l : List Nat)
    (h : IsChain m a l) (ha : a ≠ 0) :
    ∃ l', l = a :: l' ∧ IsChain m (m a) l' := by
  cases h with
  | nil => exact absurd rfl ha
  | cons _ h' => exact ⟨_, rfl, h'⟩

theorem isChain_nonempty_of_ne (m : Mem) (a : Nat) (l : List Nat)
    (h : IsChain m a l) (ha : a ≠ 0) : l ≠ [] := by
  obtain ⟨l', he, _⟩ := isChain_inv_ne m a l h ha
  simp [he]

theorem flPop_inv (m : Mem) (fl : FreeListState) (l : List Nat)
    (hch : IsChain m fl.head l) (hsz : fl.size = l.length)
    (htl : fl.tail = lastOr0 l) (hne : fl.head ≠ 0) :
    FLInv (flPop m fl).2.1 (flPop m fl).2.2 := by
  obtain ⟨l', rfl, hch'⟩ := isChain_inv_ne m _ _ hch hne
  refine ⟨l', hch', by simp [flPop, hsz], ?_⟩
  show (if m fl.head = 0 then 0 else fl.tail) = lastOr0 l'
  by_cases h0 : m fl.head = 0
  · have : l' = [] := isChain_zero m _ (h0 ▸ hch')
    simp [h0, this, lastOr0]
  · have hl' : l' ≠ [] := isChain_nonempty_of_ne m _ _ hch' h0
    rw [if_neg h0, htl, lastOr0_cons_ne _ _ hl']

theorem isChain_append (m : Mem) (h : Nat) (l : List Nat) :
    ∀ (c : List Nat) (start : Nat), IsChain m start c → c ≠ [] →
    (∀ x ∈ c, x ∉ l) →
    IsChain (fun a => if a = lastOr0 c then h else m a) h l →
    IsChain (fun a => if a = lastOr0 c then h else m a) start (c ++ l) := by
  intro c
  induction c with
  | nil => intro start _ hne; exact absurd rfl hne
  | cons b c' ih =>
    intro start hch hne hdisj hl
    cases hch with
    | cons hb hch' =>
      by_cases hc'e : c' = []
      · subst hc'e
        have hlast : lastOr0 [b] = b := by simp [lastOr0]
        refine IsChain.cons hb ?_
        show IsChain _ (if b = lastOr0 [b] then h else m b) l
        rw [hlast, if_pos rfl]
        exact hl
      · have hlast : lastOr0 (b :: c') = lastOr0 c' := lastOr0_cons_ne _ _ hc'e
        have hnd := isChain_nodup m _ _ (IsChain.cons hb hch')
        have hbnotc' : b ∉ c' := (List.nodup_cons.mp hnd).1
        have hbne : b ≠ lastOr0 c' := by
          intro he
          exact hbnotc' (he ▸ lastOr0_mem c' hc'e)
        rw [hlast]
        refine IsChain.cons hb ?_
        show IsChain _ (if b = lastOr0 c' then h else m b) (c' ++ l)
        rw [if_neg hbne]
        have := ih (m b) hch' hc'e (fun x hx => hdisj x (by simp [hx]))
        rw [hlast] at hl
        exact this hl

theorem flPushRange_inv (m : Mem) (fl : FreeListState) (start endp n : Nat)
    (l c : List Nat)
    (hch : IsChain m fl.head l) (hsz : fl.size = l.length)
    (htl : fl.tail = lastOr0 l)
    (hc : IsChain m start c) (hcne : c ≠ []) (hn : c.length = n)
    (hend : lastOr0 c = endp) (hdisj : ∀ x ∈ c, x ∉ l) :
    FLInv (flPushRange m fl start endp n).1 (flPushRange m fl start endp n).2 := by
  subst hend
  have hendc : lastOr0 c ∈ c := lastOr0_mem c hcne
  have hl' : IsChain (fun a => if a = lastOr0 c then fl.head else m a) fl.head l :=
    isChain_congr m _ _ _ hch (fun x hx => by
      have : x ≠ lastOr0 c := fun he => hdisj _ (he ▸ hendc) hx
      simp [this])
  refine ⟨c ++ l, ?_, ?_, ?_⟩
  · exact isChain_append m fl.head l c start hc hcne hdisj hl'
  · show fl.size + n = (c ++ l).length
    rw [List.length_append, hn, hsz]
    omega
  · show (if fl.tail = 0 then lastOr0 c else fl.tail) = lastOr0 (c ++ l)
    by_cases h0 : fl.tail = 0
    · have hl : l = [] := by
        rw [htl] at h0
        exact (lastOr0_eq_zero_iff m fl.head l hch).mp h0
      subst hl
      simp [h0]
    · have hl : l ≠ [] := by
        intro he
        subst he
        simp [lastOr0] at htl
        exact h0 htl
      rw [if_neg h0, htl]
      unfold lastOr0
      rw [List.getLast?_append_of_ne_nil c hl]

theorem isChain_nil_zero (m : Mem) (b : Nat) (h : IsChain m b []) : b = 0 := by
  cases h
  rfl

theorem isChain_ne_of_nonempty (m : Mem) (b : Nat) (l : List Nat)
    (h : IsChain m b l) (hl : l ≠ []) : b ≠ 0 := by
  cases h with
  | nil => exact absurd rfl hl
  | cons hb _ => exact hb

theorem isChain_step_drop (m : Mem) :
    ∀ (k : Nat) (a : Nat) (l : List Nat), IsChain m a l → k < l.length →
      flStep m a k = l.getD k 0 ∧ IsChain m (l.getD k 0) (l.drop k) := by
  intro k
  induction k with
  | zero =>
    intro a l hch hk
    cases l with
    | nil => simp at hk
    | cons b t =>
      cases hch with
      | cons hb hch' => exact ⟨rfl, IsChain.cons hb hch'⟩
  | succ k ih =>
    intro a l hch hk
    cases l with
    | nil => simp at hk
    | cons b t =>
      cases hch with
      | cons hb hch' =>
        have hk' : k < t.length := by simp at hk; omega
        exact ih (m a) t hch' hk'

theorem flPopRange_inv (m : Mem) (fl : FreeListState) (n : Nat) (l : List Nat)
    (hch : IsChain m fl.head l) (hsz : fl.size = l.length)
    (htl : fl.tail = lastOr0 l) (h1 : 1 ≤ n) (hn : n ≤ fl.size) :
    FLInv (flPopRange m fl n).2.1 (flPopRange m fl n).2.2 := by
  have hn1 : n - 1 < l.length := by omega
  obtain ⟨hstep, hchd⟩ := isChain_step_drop m (n - 1) fl.head l hch hn1
  set endp := l.getD (n - 1) 0 with hendp
  have hmem : endp ∈ l := by
    rw [hendp, List.getD_eq_getElem l 0 hn1]
    exact List.getElem_mem hn1
  have hene : endp ≠ 0 := isChain_ne_zero m fl.head l hch endp hmem
  obtain ⟨rest, hde, hchr⟩ := isChain_inv_ne m endp _ hchd hene
  have hrest : rest = l.drop n := by
    have ht := congrArg List.tail hde
    rw [List.tail_drop] at ht
    have : n - 1 + 1 = n := by omega
    rw [this] at ht
    simpa using ht.symm
  subst hrest
  have hnd := isChain_nodup m fl.head l hch
  have hnd' : (l.drop (n - 1)).Nodup := hnd.sublist (List.drop_sublist _ _)
  have hnotin : endp ∉ l.drop n := by
    rw [hde] at hnd'
    exact (List.nodup_cons.mp hnd').1
  -- the new memory only changes the next pointer of endp
  have hch' : IsChain (fun a => if a = endp then 0 else m a) (m endp) (l.drop n) :=
    isChain_congr m _ _ _ hchr (fun x hx => by
      have : x ≠ endp := fun he => hnotin (he ▸ hx)
      simp [this])
  refine ⟨l.drop n, ?_, ?_, ?_⟩
  · show IsChain (fun a => if a = flStep m fl.head (n - 1) then 0 else m a)
      (m (flStep m fl.head (n - 1))) (l.drop n)
    rw [hstep]
    exact hch'
  · show fl.size - n = (l.drop n).length
    rw [List.length_drop, hsz]
  · show (if m (flStep m fl.head (n - 1)) = 0 then 0 else fl.tail) = lastOr0 (l.drop n)
    rw [hstep]
    by_cases h0 : m endp = 0
    · have : l.drop n = [] := isChain_zero m _ (h0 ▸ hchr)
      simp [h0, this, lastOr0]
    · have hdn : l.drop n ≠ [] := by
        intro he
        rw [he] at hchr
        exact h0 (isChain_nil_zero m _ hchr)
      rw [if_neg h0, htl]
      have hsplit : l = l.take n ++ l.drop n := (List.take_append_drop n l).symm
      unfold lastOr0
      rw [hsplit, List.getLast?_append_of_ne_nil _ hdn]
      rw [← hsplit]

/-! ## PageCacheShard / PageHeap (PageCache.h, PageCache.cpp)

Spans are identified by a `Nat` identifier (models `Span*`); `spans`
gives the metadata record of each identifier, `live` the identifiers
currently allocated from the span pool.  The free-list containers hold
identifiers; `_largeSpanLists` / `_releasedLargeSpanLists` are
association lists sorted by ascending page count (`std::map`).  The
global `RadixPageMap` is modelled as its map semantics `Nat → Option
Nat` — the radix-tree section above proves (`pmApply_lastWrite`) that
the three-level tree realizes exactly this last-write-wins map.
`SystemAlloc` hands out fresh, disjoint page ranges from a bump cursor
and records its page-count requests.  `size_t` counters that the code
decrements are modelled with explicit 64-bit wrap (`wsub`/`wadd`); page
ids and page counts of real executions stay far below `2 ^ 64`, and
their additions are modelled exactly. -/

/-- `Span` metadata from Span.h; the default field values are the
member initializers run by the placement `new` in `ObjectPool::New`. -/
structure SpanD where
  pageId : Nat := 0
  n : Nat := 0
  objSize : Nat := 0
  useCount : Nat := 0
  isUse : Bool := false
  isCold : Bool := false
  shardId : Nat := 0
  freeObjs : List Nat := []
  deriving DecidableEq

/-- State of one `PageCacheShard` together with the global collaborators
it touches (`PageMap`, `SystemAlloc`, its span pool). -/
structure PH where
  spans : Nat → SpanD
  nextId : Nat := 0
  live : List Nat := []
  hot : Nat → List Nat
  hotLarge : List (Nat × List Nat) := []
  cold : Nat → List Nat
  coldLarge : List (Nat × List Nat) := []
  pageMap : Nat → Option Nat
  totalFreePages : Nat := 0
  releaseThreshold : Nat := 256
  shardId : Nat := 0
  sysNextPage : Nat := 1
  sysCalls : List Nat := []

/-- Pointwise update of an array of lists. -/
def listUpd (f : Nat → List Nat) (i : Nat) (v : List Nat) : Nat → List Nat :=
  fun j => if j = i then v else f j

/-- Pointwise update of the span store. -/
def spansUpd (f : Nat → SpanD) (i : Nat) (v : SpanD) : Nat → SpanD :=
  fun j => if j = i then v else f j

/-- One `PageMap::set` call at map level. -/
def pmapSet (pm : Nat → Option Nat) (p : Nat) (id : Nat) : Nat → Option Nat :=
  fun q => if q = p then some id else pm q

/-- `for (i = 0; i < k; ++i) PageMap::set(base + i, span)`. -/
def pmSetRange (pm : Nat → Option Nat) (base : Nat) : Nat → Nat → Nat → Option Nat
  | 0, _ => pm
  | k + 1, id => pmapSet (pmSetRange pm base k id) (base + k) id

/-- `std::map::lower_bound(k)`: first entry with key `≥ k` (the
association list is kept sorted by ascending key). -/
def mapLowerBound (mp : List (Nat × List Nat)) (k : Nat) : Option (Nat × List Nat) :=
  mp.find? (fun e => decide (k ≤ e.1))

/-- `std::map::erase(key)`. -/
def mapEraseKey (mp : List (Nat × List Nat)) (k : Nat) : List (Nat × List Nat) :=
  mp.filter (fun e => e.1 != k)

/-- Replace the list stored at an existing key. -/
def mapUpdate (mp : List (Nat × List Nat)) (k : Nat) (l : List Nat) :
    List (Nat × List Nat) :=
  mp.map (fun e => if e.1 = k then (e.1, l) else e)

/-- `map[k].PushFront(span)`: `operator[]` inserts an empty list at `k`
when absent (keeping keys sorted), then the id is pushed at the front. -/
def mapPushFront : List (Nat × List Nat) → Nat → Nat → List (Nat × List Nat)
  | [], k, id => [(k, [id])]
  | e :: rest, k, id =>
    if k < e.1 then (k, [id]) :: e :: rest
    else if k = e.1 then (e.1, id :: e.2) :: rest
    else e :: mapPushFront rest k id

/-- Erase an identifier from a list (used to model the intrusive
`Span::Remove`, which unlinks the span from the one list containing it;
under the at-most-one-membership invariant filtering every container is
that same operation). -/
def eraseId (l : List Nat) (id : Nat) : List Nat := l.filter (fun x => x != id)

/-- `Span::Remove()` applied to a span sitting in one of the shard's
containers. -/
def shardRemoveSpan (s : PH) (id : Nat) : PH :=
  { s with
    hot := fun i => eraseId (s.hot i) id
    hotLarge := s.hotLarge.map (fun e => (e.1, eraseId e.2 id))
    cold := fun i => eraseId (s.cold i) id
    coldLarge := s.coldLarge.map (fun e => (e.1, eraseId e.2 id)) }

/-- `SystemAlloc(k)`: a fresh `k`-page range; returns its first page id
(`(PAGE_ID)ptr >> PAGE_SHIFT`) and records the request. -/
def sysAlloc (s : PH) (k : Nat) : Nat × PH :=
  (s.sysNextPage,
   { s with sysNextPage := s.sysNextPage + k, sysCalls := s.sysCalls ++ [k] })

/-- `_spanPool.New()`: a fresh default-constructed `Span` record. -/
def spanPoolNew (s : PH) : Nat × PH :=
  (s.nextId,
   { s with
     nextId := s.nextId + 1
     live := s.nextId :: s.live
     spans := spansUpd s.spans s.nextId {} })

/-- `_spanPool.Delete(span)`. -/
def spanPoolDelete (s : PH) (id : Nat) : PH :=
  { s with live := eraseId s.live id }

/-- `PageCacheShard::AllocFromHotList(list, k)` with `list = hot[i]`:
pop the front span, split off the high remainder when it is larger than
`k` (the fresh record gets only `_pageId`, `_n`, `_isCold` assigned —
every other field keeps its placement-new default), register the issued
range in the page map, and mark the span in use and hot. -/
def allocFromHotList (s : PH) (i k : Nat) : Option Nat × PH :=
  match s.hot i with
  | [] => (none, s)
  | id :: rest =>
    let sp := s.spans id
    let s1 := { s with
      hot := listUpd s.hot i rest
      totalFreePages := wsub s.totalFreePages sp.n }
    let s2 :=
      if sp.n > k then
        let splitId := s1.nextId
        let split : SpanD := { pageId := sp.pageId + k, n := sp.n - k, isCold := false }
        let s2a := { s1 with
          nextId := s1.nextId + 1
          live := splitId :: s1.live
          spans := spansUpd (spansUpd s1.spans splitId split) id { sp with n := k } }
        let s2b := { s2a with
          hot := listUpd s2a.hot split.n (splitId :: s2a.hot split.n)
          totalFreePages := wadd s2a.totalFreePages split.n }
        { s2b with
          pageMap := pmapSet (pmapSet s2b.pageMap split.pageId splitId)
            (split.pageId + split.n - 1) splitId }
      else s1
    let sp2 := s2.spans id
    let s3 := { s2 with pageMap := pmSetRange s2.pageMap sp2.pageId k id }
    let s4 := { s3 with
      spans := spansUpd s3.spans id { sp2 with isUse := true, isCold := false } }
    (some id, s4)

/-- `PageCacheShard::AllocFromColdList(list, k)` with `list = cold[i]`:
like the hot variant, but the cold free-page counter is untouched and
the split remainder stays cold. -/
def allocFromColdList (s : PH) (i k : Nat) : Option Nat × PH :=
  match s.cold i with
  | [] => (none, s)
  | id :: rest =>
    let sp := s.spans id
    let s1 := { s with cold := listUpd s.cold i rest }
    let s2 :=
      if sp.n > k then
        let splitId := s1.nextId
        let split : SpanD := { pageId := sp.pageId + k, n := sp.n - k, isCold := true }
        let s2a := { s1 with
          nextId := s1.nextId + 1
          live := splitId :: s1.live
          spans := spansUpd (spansUpd s1.spans splitId split) id { sp with n := k } }
        let s2b := { s2a with
          cold := listUpd s2a.cold split.n (splitId :: s2a.cold split.n) }
        { s2b with
          pageMap := pmapSet (pmapSet s2b.pageMap split.pageId splitId)
            (split.pageId + split.n - 1) splitId }
      else s1
    let sp2 := s2.spans id
    let s3 := { s2 with pageMap := pmSetRange s2.pageMap sp2.pageId k id }
    let s4 := { s3 with
      spans := spansUpd s3.spans id { sp2 with isUse := true, isCold := false } }
    (some id, s4)

/-- `PageCacheShard::AllocFromMap(map, it, k, isCold)`: `e` is the entry
the caller found via `lower_bound`.  An empty list is a ghost entry —
it is erased and `none` is returned so the caller retries.  A split
remainder inherits the source's hot/cold property and goes back into
the corresponding large map. -/
def allocFromMap (s : PH) (e : Nat × List Nat) (k : Nat) (isCold : Bool) :
    Option Nat × PH :=
  match e.2 with
  | [] =>
    if isCold then (none, { s with coldLarge := mapEraseKey s.coldLarge e.1 })
    else (none, { s with hotLarge := mapEraseKey s.hotLarge e.1 })
  | id :: rest =>
    let sp := s.spans id
    let s1 :=
      if isCold then { s with coldLarge := mapUpdate s.coldLarge e.1 rest }
      else { s with
        hotLarge := mapUpdate s.hotLarge e.1 rest
        totalFreePages := wsub s.totalFreePages sp.n }
    let s2 :=
      if sp.n > k then
        let splitId := s1.nextId
        let split : SpanD := { pageId := sp.pageId + k, n := sp.n - k, isCold := isCold }
        let s2a := { s1 with
          nextId := s1.nextId + 1
          live := splitId :: s1.live
          spans := spansUpd (spansUpd s1.spans splitId split) id { sp with n := k } }
        let s2b :=
          if isCold then { s2a with coldLarge := mapPushFront s2a.coldLarge split.n splitId }
          else { s2a with
            hotLarge := mapPushFront s2a.hotLarge split.n splitId
            totalFreePages := wadd s2a.totalFreePages split.n }
        { s2b with
          pageMap := pmapSet (pmapSet s2b.pageMap split.pageId splitId)
            (split.pageId + split.n - 1) splitId }
      else s1
    let sp2 := s2.spans id
    let s3 := { s2 with pageMap := pmSetRange s2.pageMap sp2.pageId k id }
    let s4 := { s3 with
      spans := spansUpd s3.spans id { sp2 with isUse := true, isCold := false } }
    (some id, s4)

/-- Result of one iteration of the `while (true)` body of
`PageCacheShard::NewSpan`. -/
inductive NSRes where
  | done (id : Nat)
  | retry
  deriving DecidableEq

/-- The hot-split scan `for (i = k + 1; i < NPAGES; ++i)`. -/
def firstNonEmptyHot (s : PH) (k : Nat) : Option Nat :=
  (List.range' (k + 1) (NPAGES - (k + 1))).find? (fun i => !(s.hot i).isEmpty)

/-- The cold-split scan `for (i = k + 1; i < NPAGES; ++i)`. -/
def firstNonEmptyCold (s : PH) (k : Nat) : Option Nat :=
  (List.range' (k + 1) (NPAGES - (k + 1))).find? (fun i => !(s.cold i).isEmpty)

/-- Phase 3 of `NewSpan`: the `SystemAlloc` fallback.  For `k ≥ NPAGES`
a span is created directly (every page registered); otherwise a
`NPAGES - 1`-page block is fetched, registered at its first and last
page, installed in `_spanLists[NPAGES - 1]`, and the loop retries. -/
def newSpanFallback (s : PH) (k : Nat) : NSRes × PH :=
  if k ≥ NPAGES then
    let p := s.sysNextPage
    let s1 := { s with sysNextPage := s.sysNextPage + k, sysCalls := s.sysCalls ++ [k] }
    let id := s1.nextId
    let sp : SpanD :=
      { pageId := p, n := k, isUse := true, isCold := false, shardId := s1.shardId }
    let s2 := { s1 with
      nextId := s1.nextId + 1
      live := id :: s1.live
      spans := spansUpd s1.spans id sp }
    let s3 := { s2 with pageMap := pmSetRange s2.pageMap p k id }
    (NSRes.done id, s3)
  else
    let p := s.sysNextPage
    let s1 := { s with
      sysNextPage := s.sysNextPage + (NPAGES - 1)
      sysCalls := s.sysCalls ++ [NPAGES - 1] }
    let id := s1.nextId
    let sp : SpanD :=
      { pageId := p, n := NPAGES - 1, isCold := false, shardId := s1.shardId }
    let s2 := { s1 with
      nextId := s1.nextId + 1
      live := id :: s1.live
      spans := spansUpd s1.spans id sp }
    let s3 := { s2 with
      pageMap := pmapSet (pmapSet s2.pageMap p id) (p + (NPAGES - 1) - 1) id }
    let s4 := { s3 with
      hot := listUpd s3.hot (NPAGES - 1) (id :: s3.hot (NPAGES - 1))
      totalFreePages := wadd s3.totalFreePages (NPAGES - 1) }
    (NSRes.retry, s4)

/-- Phase 2.3 of `NewSpan`: the cold large map (consulted for every `k`
when the earlier phases found nothing), then the fallback. -/
def newSpanColdLarge (s : PH) (k : Nat) : NSRes × PH :=
  match s.coldLarge with
  | [] => newSpanFallback s k
  | _ :: _ =>
    match mapLowerBound s.coldLarge k with
    | some e =>
      match allocFromMap s e k true with
      | (none, s') => (NSRes.retry, s')
      | (some id, s') => (NSRes.done id, s')
    | none => newSpanFallback s k

/-- Phase 2 of `NewSpan`: the cold array (exact, then split) for
`k < NPAGES`, then the cold large map / fallback. -/
def newSpanCold (s : PH) (k : Nat) : NSRes × PH :=
  if k < NPAGES then
    match s.cold k with
    | _ :: _ =>
      match allocFromColdList s k k with
      | (some id, s') => (NSRes.done id, s')
      | (none, s') => (NSRes.retry, s')
    | [] =>
      match firstNonEmptyCold s k with
      | some i =>
        match allocFromColdList s i k with
        | (some id, s') => (NSRes.done id, s')
        | (none, s') => (NSRes.retry, s')
      | none => newSpanColdLarge s k
  else newSpanColdLarge s k

/-- One iteration of the `while (true)` body of
`PageCacheShard::NewSpan(k)`: hot array (exact, split) for
`k < NPAGES`, hot large map (only) for `k ≥ NPAGES`, then the cold
phases and the fallback. -/
def newSpanStep (s : PH) (k : Nat) : NSRes × PH :=
  if k < NPAGES then
    match s.hot k with
    | _ :: _ =>
      match allocFromHotList s k k with
      | (some id, s') => (NSRes.done id, s')
      | (none, s') => (NSRes.retry, s')
    | [] =>
      match firstNonEmptyHot s k with
      | some i =>
        match allocFromHotList s i k with
        | (some id, s') => (NSRes.done id, s')
        | (none, s') => (NSRes.retry, s')
      | none => newSpanCold s k
  else
    match mapLowerBound s.hotLarge k with
    | some e =>
      match allocFromMap s e k false with
      | (none, s') => (NSRes.retry, s')
      | (some id, s') => (NSRes.done id, s')
    | none => newSpanCold s k

/-- `PageCacheShard::NewSpan(k)`: iterate the loop body (`fuel` bounds
the number of iterations; the shard mutex is held throughout in the
source and concurrency is not modelled). -/
def newSpanLoop : Nat → PH → Nat → Option Nat × PH
  | 0, s, _ => (none, s)
  | fuel + 1, s, k =>
    match newSpanStep s k with
    | (NSRes.done id, s') => (some id, s')
    | (NSRes.retry, s') => newSpanLoop fuel s' k

/-- `PageHeap::NewSpan(k)`: route to the current thread's shard and
stamp `span->_shardId = idx` on the returned span.  The model
instantiates the one shard with index `s.shardId`. -/
def pageHeapNewSpan (fuel : Nat) (s : PH) (k : Nat) : Option Nat × PH :=
  match newSpanLoop fuel s k with
  | (some id, s') =>
    (some id,
     { s' with spans := spansUpd s'.spans id { s'.spans id with shardId := s'.shardId } })
  | (none, s') => (none, s')

/-- `PageCacheShard::ReleaseSpanToCold(span)`: deduct the pages from the
hot counter, mark the span cold (`madvise`/`VirtualFree` release the
physical pages), and hang it into the cold containers.  Its page-map
entries are left intact so neighbors can still find it while coalescing. -/
def releaseSpanToCold (s : PH) (id : Nat) : PH :=
  let sp := s.spans id
  let s1 := { s with
    totalFreePages := wsub s.totalFreePages sp.n
    spans := spansUpd s.spans id { sp with isCold := true } }
  if sp.n < NPAGES then { s1 with cold := listUpd s1.cold sp.n (id :: s1.cold sp.n) }
  else { s1 with coldLarge := mapPushFront s1.coldLarge sp.n id }

/-- The `while (true)` left-coalescing loop of
`PageCacheShard::ReleaseSpan`: merge the free same-shard neighbor at
`pageId - 1` (found through the page map) into `id`, destroying the
neighbor's record. -/
def coalesceLeft : Nat → PH → Nat → PH
  | 0, s, _ => s
  | fuel + 1, s, id =>
    let sp := s.spans id
    let leftId := wsub sp.pageId 1
    match s.pageMap leftId with
    | none => s
    | some lid =>
      let lsp := s.spans lid
      if lsp.isUse = true ∨ lsp.shardId ≠ s.shardId then s
      else
        let s1 := shardRemoveSpan s lid
        let s2 :=
          if lsp.isCold = true then s1
          else { s1 with totalFreePages := wsub s1.totalFreePages lsp.n }
        let s3 := { s2 with
          spans := spansUpd s2.spans id { sp with pageId := lsp.pageId, n := sp.n + lsp.n }
          live := eraseId s2.live lid }
        coalesceLeft fuel s3 id

/-- The symmetric right-coalescing loop, examining `pageId + n`. -/
def coalesceRight : Nat → PH → Nat → PH
  | 0, s, _ => s
  | fuel + 1, s, id =>
    let sp := s.spans id
    let rightId := sp.pageId + sp.n
    match s.pageMap rightId with
    | none => s
    | some rid =>
      let rsp := s.spans rid
      if rsp.isUse = true ∨ rsp.shardId ≠ s.shardId then s
      else
        let s1 := shardRemoveSpan s rid
        let s2 :=
          if rsp.isCold = true then s1
          else { s1 with totalFreePages := wsub s1.totalFreePages rsp.n }
        let s3 := { s2 with
          spans := spansUpd s2.spans id { sp with n := sp.n + rsp.n }
          live := eraseId s2.live rid }
        coalesceRight fuel s3 id

/-- Loop 1 of `ReleaseSomeSpansToSystem`: while above the watermark,
take the largest key of the hot large map (erasing empty ghost entries
on the way) and move its front span to the cold side. -/
def reclaimLarge : Nat → PH → PH
  | 0, s => s
  | fuel + 1, s =>
    if s.totalFreePages > s.releaseThreshold then
      match s.hotLarge.getLast? with
      | none => s
      | some e =>
        match e.2 with
        | [] => reclaimLarge fuel { s with hotLarge := mapEraseKey s.hotLarge e.1 }
        | id :: rest =>
          reclaimLarge fuel (releaseSpanToCold { s with hotLarge := mapUpdate s.hotLarge e.1 rest } id)
    else s

/-- The inner `while` of loop 2 of `ReleaseSomeSpansToSystem`, draining
`_spanLists[i]` while above the watermark. -/
def reclaimSmallAt : Nat → PH → Nat → PH
  | 0, s, _ => s
  | fuel + 1, s, i =>
    if s.totalFreePages > s.releaseThreshold then
      match s.hot i with
      | [] => s
      | id :: rest =>
        reclaimSmallAt fuel (releaseSpanToCold { s with hot := listUpd s.hot i rest } id) i
    else s

/-- Loop 2 of `ReleaseSomeSpansToSystem`: `for (i = NPAGES - 1; i > 0;
--i)`, draining each bucket and exiting as soon as the watermark is
met. -/
def reclaimSmall : Nat → PH → PH
  | 0, s => s
  | i + 1, s =>
    let s1 := reclaimSmallAt (s.hot (i + 1)).length s (i + 1)
    if s1.totalFreePages ≤ s1.releaseThreshold then s1 else reclaimSmall i s1

/-- `PageCacheShard::ReleaseSomeSpansToSystem()`. -/
def releaseSomeSpans (fuel : Nat) (s : PH) : PH :=
  let s1 := reclaimLarge fuel s
  if s1.totalFreePages > s1.releaseThreshold then reclaimSmall (NPAGES - 1) s1 else s1

/-- `PageCacheShard::ReleaseSpan(span)`: coalesce left and right with
free same-shard neighbors, mark the merged span free and hot, register
only its first and last page, insert it into the hot containers, bump
the hot counter, and reclaim when above the watermark. -/
def releaseSpan (fuel : Nat) (s : PH) (id : Nat) : PH :=
  let s1 := coalesceLeft fuel s id
  let s2 := coalesceRight fuel s1 id
  let sp := s2.spans id
  let s3 := { s2 with
    spans := spansUpd s2.spans id { sp with isUse := false, isCold := false }
    pageMap := pmapSet (pmapSet s2.pageMap sp.pageId id) (sp.pageId + sp.n - 1) id }
  let s4 :=
    if sp.n < NPAGES then { s3 with hot := listUpd s3.hot sp.n (id :: s3.hot sp.n) }
    else { s3 with hotLarge := mapPushFront s3.hotLarge sp.n id }
  let s5 := { s4 with totalFreePages := wadd s4.totalFreePages sp.n }
  if s5.totalFreePages > s5.releaseThreshold then releaseSomeSpans fuel s5 else s5

/-! ## Concrete states used by the claim theorems -/

/-- A freshly constructed shard: every container empty, no spans, empty
page map (shard id 0, `SystemAlloc` cursor at page 1). -/
def emptyShard : PH :=
  { spans := fun _ => {}, hot := fun _ => [], cold := fun _ => [],
    pageMap := fun _ => none }

/-- A shard with id 1 whose `hot_small[2]` holds one free 2-page span
(span 0 at pages 100..101, correctly stamped with shard id 1). -/
def shard1State : PH :=
  { spans := fun j => if j = 0 then { pageId := 100, n := 2, shardId := 1 } else {}
    nextId := 1
    live := [0]
    hot := fun i => if i = 2 then [0] else []
    cold := fun _ => []
    pageMap := fun p => if p = 100 ∨ p = 101 then some 0 else none
    shardId := 1
    totalFreePages := 2 }

/-- A shard whose hot small lists are all empty, whose hot large map
holds a 200-page span (span 5), and whose `cold_small[1]` holds a
decommitted 1-page span (span 7). -/
def hotLargeColdState : PH :=
  { spans := fun j =>
      if j = 5 then { pageId := 1000, n := 200 }
      else if j = 7 then { pageId := 50, n := 1, isCold := true } else {}
    nextId := 8
    live := [5, 7]
    hot := fun _ => []
    cold := fun i => if i = 1 then [7] else []
    hotLarge := [(200, [5])]
    pageMap := fun p =>
      if p = 1000 ∨ p = 1199 then some 5 else if p = 50 then some 7 else none
    totalFreePages := 200 }

/-! ## Claim theorems -/

/-- C8: after the size-class table is initialized,
`size_to_class(class_to_size(i)) == i` for every class index
`i ∈ [0, 264)`, and `round_up(round_up(n)) == round_up(n)` for every
`n ∈ [1, MAX_BYTES]`. -/
theorem C8_sizeclass_roundtrip :
    (∀ i, i < MAX_NFREELISTS → index (class_to_size i) = i) ∧
    (∀ n, 1 ≤ n → n ≤ MAX_BYTES → roundUp (roundUp n) = roundUp n) :=
  ⟨fun i hi => index_class_to_size i hi,
   fun n _ hn => roundUp_idem n hn⟩

theorem C8_sizeclass_roundtrip_witness :
    (3 < MAX_NFREELISTS ∧ index (class_to_size 3) = 3) ∧
    (1 ≤ 16 ∧ 16 ≤ MAX_BYTES ∧ roundUp (roundUp 16) = roundUp 16) :=
  ⟨⟨by decide, C8_sizeclass_roundtrip.1 3 (by decide)⟩,
   ⟨by decide, by decide, C8_sizeclass_roundtrip.2 16 (by decide) (by decide)⟩⟩

/-- C10: `PageMap::get` is total — for every page id beyond the 35-bit
page-id space it returns null regardless of the tree's contents; and
after any sequence of in-range `set`s starting from the fresh map, `get`
returns exactly the last value written for the id (the leaf slot), null
when an intermediate node is absent — in particular null for every id
that was never set. -/
theorem C10_pagemap_get :
    (∀ (m : PageMapT) (id : Nat), 2 ^ 35 ≤ id → pmGet m id = none) ∧
    (∀ ops : List (Nat × Nat), (∀ p ∈ ops, p.1 < 2 ^ 35) →
      ∀ id, pmGet (pmApply ops) id = lastWrite ops id) ∧
    (∀ ops : List (Nat × Nat), (∀ p ∈ ops, p.1 < 2 ^ 35) →
      ∀ id, (∀ p ∈ ops, p.1 ≠ id) → pmGet (pmApply ops) id = none) := by
  refine ⟨pmGet_out_of_range, pmApply_lastWrite, ?_⟩
  intro ops hops id hne
  rw [pmApply_lastWrite ops hops id]
  unfold lastWrite
  rw [List.find?_eq_none.mpr]
  · rfl
  · intro p hp
    simp only [beq_iff_eq]
    exact hne p (List.mem_reverse.mp hp)

theorem C10_pagemap_get_witness :
    (2 ^ 35 ≤ 2 ^ 35 ∧ pmGet pageMapEmpty (2 ^ 35) = none) ∧
    ((∀ p ∈ [((5 : Nat), (77 : Nat))], p.1 < 2 ^ 35) ∧
      pmGet (pmApply [(5, 77)]) 5 = lastWrite [(5, 77)] 5) ∧
    ((∀ p ∈ [((5 : Nat), (77 : Nat))], p.1 ≠ 9) ∧
      pmGet (pmApply [(5, 77)]) 9 = none) :=
  ⟨⟨le_refl _, C10_pagemap_get.1 pageMapEmpty _ (le_refl _)⟩,
   ⟨by decide, C10_pagemap_get.2.1 [(5, 77)] (by decide) 5⟩,
   ⟨by decide, C10_pagemap_get.2.2 [(5, 77)] (by decide) 9 (by decide)⟩⟩

/-- C1: the claim fails on the code — when shard 1 splits its 2-page hot
span for a 1-page request, the fresh remainder record keeps the
placement-new default `_shardId = 0` (the split paths never assign it),
so it does not inherit the splitting shard's id 1; and when the
remainder is later issued, `PageHeap::NewSpan` stamps it with 1, so its
shard id changes after its first assignment.  The span-pool comments and
the explicit `_shardId` stamping in the fallback paths show the spec
states the intent and the split paths are a slip. -/
theorem C1_split_shardId_bug :
    shard1State.shardId = 1 ∧
    (pageHeapNewSpan 1 shard1State 1).2.hot 1 = [1] ∧
    ((pageHeapNewSpan 1 shard1State 1).2.spans 1).shardId = 0 ∧
    ((pageHeapNewSpan 1 (pageHeapNewSpan 1 shard1State 1).2 1).2.spans 1).shardId = 1 := by
  refine ⟨rfl, rfl, rfl, rfl⟩

/-- C4 (counterexample): on an empty shard, `new_span(1)`'s OS fallback
requests `NPAGES - 1 = 128` pages (not 127), installs the block in
`hot_small[128]` (not `hot_small[127]`), and retries. -/
theorem C4_fallback_counterexample :
    (newSpanLoop 1 emptyShard 1).2.sysCalls = [128] ∧
    (newSpanLoop 1 emptyShard 1).2.sysCalls ≠ [127] ∧
    (newSpanLoop 1 emptyShard 1).2.hot 128 = [0] ∧
    (newSpanLoop 1 emptyShard 1).2.hot 127 = [] ∧
    ((newSpanLoop 1 emptyShard 1).2.spans 0).n = 128 ∧
    (newSpanLoop 1 emptyShard 1).1 = none := by
  refine ⟨rfl, by decide, rfl, rfl, rfl, rfl⟩

theorem firstNonEmptyHot_none (s : PH) (k : Nat)
    (hhot : ∀ i, k ≤ i → i < NPAGES → s.hot i = []) :
    firstNonEmptyHot s k = none := by
  unfold firstNonEmptyHot
  apply List.find?_eq_none.mpr
  intro i hi
  rw [List.mem_range'_1] at hi
  have : s.hot i = [] := hhot i (by omega) (by omega)
  simp [this]

theorem firstNonEmptyCold_none (s : PH) (k : Nat)
    (hcold : ∀ i, k ≤ i → i < NPAGES → s.cold i = []) :
    firstNonEmptyCold s k = none := by
  unfold firstNonEmptyCold
  apply List.find?_eq_none.mpr
  intro i hi
  rw [List.mem_range'_1] at hi
  have : s.cold i = [] := hcold i (by omega) (by omega)
  simp [this]

/-- C4 (amended): when `new_span(k)` with `k < NPAGES = 129` finds no hot
or cold candidate, it requests exactly `NPAGES - 1 = 128` pages from the
SystemAllocator, installs the resulting span (fresh record, stamped with
the shard's id, not in use, hot) in `hot_small[128]`, and retries the
procedure from step 1. -/
theorem C4_fallback_amended (s : PH) (k : Nat) (hk : k < NPAGES)
    (hhot : ∀ i, k ≤ i → i < NPAGES → s.hot i = [])
    (hcold : ∀ i, k ≤ i → i < NPAGES → s.cold i = [])
    (hcl : mapLowerBound s.coldLarge k = none) :
    (newSpanStep s k).1 = NSRes.retry ∧
    (newSpanStep s k).2.sysCalls = s.sysCalls ++ [NPAGES - 1] ∧
    NPAGES - 1 = 128 ∧
    (newSpanStep s k).2.hot (NPAGES - 1) = [s.nextId] ∧
    ((newSpanStep s k).2.spans s.nextId).n = NPAGES - 1 ∧
    ((newSpanStep s k).2.spans s.nextId).pageId = s.sysNextPage ∧
    ((newSpanStep s k).2.spans s.nextId).shardId = s.shardId ∧
    ((newSpanStep s k).2.spans s.nextId).isUse = false ∧
    ((newSpanStep s k).2.spans s.nextId).isCold = false := by
  have h1 : s.hot k = [] := hhot k (le_refl k) hk
  have h2 : firstNonEmptyHot s k = none := firstNonEmptyHot_none s k hhot
  have h3 : s.cold k = [] := hcold k (le_refl k) hk
  have h4 : firstNonEmptyCold s k = none := firstNonEmptyCold_none s k hcold
  have h128 : s.hot (NPAGES - 1) = [] := hhot _ (by unfold NPAGES at hk ⊢; omega) (by unfold NPAGES; omega)
  have hfall : newSpanStep s k = newSpanFallback s k := by
    unfold newSpanStep
    rw [if_pos hk, h1, h2]
    unfold newSpanCold
    rw [if_pos hk, h3, h4]
    unfold newSpanColdLarge
    cases hc : s.coldLarge with
    | nil => rfl
    | cons e rest =>
      rw [hc] at hcl
      rw [hcl]
  rw [hfall]
  unfold newSpanFallback
  rw [if_neg (by omega)]
  refine ⟨rfl, rfl, rfl, ?_, ?_, ?_, ?_, ?_, ?_⟩
  · show listUpd s.hot (NPAGES - 1) (s.nextId :: s.hot (NPAGES - 1)) (NPAGES - 1) = [s.nextId]
    simp [listUpd, h128]
  all_goals simp [spansUpd]

/-- C3 (counterexample): a state whose hot small lists are all empty,
whose hot large map holds a 200-page span reachable via
`lower_bound(1)`, and whose `cold_small[1]` holds a span.  `new_span(1)`
issues the cold span and leaves the hot large map untouched — the hot
large map is not searched before the cold structures for `k < 128`. -/
theorem C3_hotLarge_counterexample :
    hotLargeColdState.hot 1 = [] ∧
    firstNonEmptyHot hotLargeColdState 1 = none ∧
    mapLowerBound hotLargeColdState.hotLarge 1 = some (200, [5]) ∧
    (newSpanLoop 1 hotLargeColdState 1).1 = some 7 ∧
    (newSpanLoop 1 hotLargeColdState 1).2.hotLarge = [(200, [5])] ∧
    (newSpanLoop 1 hotLargeColdState 1).2.cold 1 = [] := by
  refine ⟨rfl, by decide, rfl, rfl, rfl, rfl⟩

/-- Replace the `_largeSpanLists` component of a shard state. -/
def withHotLarge (s : PH) (L : List (Nat × List Nat)) : PH := { s with hotLarge := L }

theorem allocFromHotList_hl (s : PH) (L : List (Nat × List Nat)) (i k : Nat) :
    allocFromHotList (withHotLarge s L) i k =
      ((allocFromHotList s i k).1, withHotLarge (allocFromHotList s i k).2 L) := by
  rcases s with ⟨sp, ni, lv, ht, hL, cd, cL, pm, tf, rt, sh, snp, sc⟩
  unfold allocFromHotList withHotLarge
  rcases h : ht i with _ | ⟨id, rest⟩
  · simp only [h]
  · simp only [h]
    split_ifs <;> rfl

theorem allocFromColdList_hl (s : PH) (L : List (Nat × List Nat)) (i k : Nat) :
    allocFromColdList (withHotLarge s L) i k =
      ((allocFromColdList s i k).1, withHotLarge (allocFromColdList s i k).2 L) := by
  rcases s with ⟨sp, ni, lv, ht, hL, cd, cL, pm, tf, rt, sh, snp, sc⟩
  unfold allocFromColdList withHotLarge
  rcases h : cd i with _ | ⟨id, rest⟩
  · simp only [h]
  · simp only [h]
    split_ifs <;> rfl

theorem allocFromMap_cold_hl (s : PH) (L : List (Nat × List Nat))
    (e : Nat × List Nat) (k : Nat) :
    allocFromMap (withHotLarge s L) e k true =
      ((allocFromMap s e k true).1, withHotLarge (allocFromMap s e k true).2 L) := by
  rcases s with ⟨sp, ni, lv, ht, hL, cd, cL, pm, tf, rt, sh, snp, sc⟩
  rcases e with ⟨key, lst⟩
  unfold allocFromMap withHotLarge
  rcases lst with _ | ⟨id, rest⟩
  · rfl
  · simp only []
    split_ifs <;> rfl

theorem newSpanFallback_hl (s : PH) (L : List (Nat × List Nat)) (k : Nat) :
    newSpanFallback (withHotLarge s L) k =
      ((newSpanFallback s k).1, withHotLarge (newSpanFallback s k).2 L) := by
  unfold newSpanFallback
  split_ifs <;> rfl

theorem newSpanColdLarge_hl (s : PH) (L : List (Nat × List Nat)) (k : Nat) :
    newSpanColdLarge (withHotLarge s L) k =
      ((newSpanColdLarge s k).1, withHotLarge (newSpanColdLarge s k).2 L) := by
  unfold newSpanColdLarge
  have hc : (withHotLarge s L).coldLarge = s.coldLarge := rfl
  rw [hc]
  rcases h : s.coldLarge with _ | ⟨e, rest⟩
  · simp only [h]
    exact newSpanFallback_hl s L k
  · simp only [h]
    rcases h2 : mapLowerBound (e :: rest) k with _ | e2
    · simp only [h2]
      exact newSpanFallback_hl s L k
    · simp only [h2]
      rw [allocFromMap_cold_hl]
      rcases hs : allocFromMap s e2 k true with ⟨r, s1⟩
      simp only [hs]
      rcases r with _ | id <;> rfl

theorem newSpanCold_hl (s : PH) (L : List (Nat × List Nat)) (k : Nat) :
    newSpanCold (withHotLarge s L) k =
      ((newSpanCold s k).1, withHotLarge (newSpanCold s k).2 L) := by
  unfold newSpanCold
  have hc : (withHotLarge s L).cold = s.cold := rfl
  have hf : firstNonEmptyCold (withHotLarge s L) k = firstNonEmptyCold s k := rfl
  rw [hc, hf]
  by_cases hk : k < NPAGES
  · rw [if_pos hk, if_pos hk]
    rcases h : s.cold k with _ | ⟨id, rest⟩
    · simp only [h]
      rcases h2 : firstNonEmptyCold s k with _ | i
      · simp only [h2]
        exact newSpanColdLarge_hl s L k
      · simp only [h2]
        rw [allocFromColdList_hl]
        rcases hs : allocFromColdList s i k with ⟨r, s1⟩
        simp only [hs]
        rcases r with _ | id2 <;> rfl
    · simp only [h]
      rw [allocFromColdList_hl]
      rcases hs : allocFromColdList s k k with ⟨r, s1⟩
      simp only [hs]
      rcases r with _ | id2 <;> rfl
  · rw [if_neg hk, if_neg hk]
    exact newSpanColdLarge_hl s L k

theorem newSpanStep_hl (s : PH) (L : List (Nat × List Nat)) (k : Nat)
    (hk : k < NPAGES) :
    newSpanStep (withHotLarge s L) k =
      ((newSpanStep s k).1, withHotLarge (newSpanStep s k).2 L) := by
  unfold newSpanStep
  have hc : (withHotLarge s L).hot = s.hot := rfl
  have hf : firstNonEmptyHot (withHotLarge s L) k = firstNonEmptyHot s k := rfl
  rw [hc, hf, if_pos hk, if_pos hk]
  rcases h : s.hot k with _ | ⟨id, rest⟩
  · simp only [h]
    rcases h2 : firstNonEmptyHot s k with _ | i
    · simp only [h2]
      exact newSpanCold_hl s L k
    · simp only [h2]
      rw [allocFromHotList_hl]
      rcases hs : allocFromHotList s i k with ⟨r, s1⟩
      simp only [hs]
      rcases r with _ | id2 <;> rfl
  · simp only [h]
    rw [allocFromHotList_hl]
    rcases hs : allocFromHotList s k k with ⟨r, s1⟩
    simp only [hs]
    rcases r with _ | id2 <;> rfl

/-- C3 (amended): for a request of `k < NPAGES = 129` pages,
`new_span(k)` neither reads nor modifies the hot large map: replacing
`hot_large` by an arbitrary `L` leaves the returned span and every other
state component unchanged, and `hot_large` itself passes through
untouched.  The hot large map is searched only for `k ≥ 129`; after the
hot small lists fail, the cold structures are consulted directly. -/
theorem C3_hotLarge_amended (fuel : Nat) (s : PH) (L : List (Nat × List Nat))
    (k : Nat) (hk : k < NPAGES) :
    newSpanLoop fuel (withHotLarge s L) k =
      ((newSpanLoop fuel s k).1, withHotLarge (newSpanLoop fuel s k).2 L) := by
  induction fuel generalizing s with
  | zero => rfl
  | succ fuel ih =>
    show (match newSpanStep (withHotLarge s L) k with
      | (NSRes.done id, s') => (some id, s')
      | (NSRes.retry, s') => newSpanLoop fuel s' k) = _
    rw [newSpanStep_hl s L k hk]
    rcases h : (newSpanStep s k).1 with id | _
    · simp only [h]
      show (some id, withHotLarge (newSpanStep s k).2 L) = _
      have : newSpanLoop (fuel + 1) s k = (some id, (newSpanStep s k).2) := by
        show (match newSpanStep s k with
          | (NSRes.done id, s') => (some id, s')
          | (NSRes.retry, s') => newSpanLoop fuel s' k) = _
        rcases hs : newSpanStep s k with ⟨r, s'⟩
        rw [hs] at h
        cases h
        rfl
      rw [this]
    · simp only [h]
      have hstep : newSpanLoop (fuel + 1) s k = newSpanLoop fuel (newSpanStep s k).2 k := by
        show (match newSpanStep s k with
          | (NSRes.done id, s') => (some id, s')
          | (NSRes.retry, s') => newSpanLoop fuel s' k) = _
        rcases hs : newSpanStep s k with ⟨r, s'⟩
        rw [hs] at h
        cases h
        rfl
      rw [hstep]
      exact ih (newSpanStep s k).2

theorem C3_hotLarge_amended_witness :
    (1 < NPAGES) ∧
    newSpanLoop 1 (withHotLarge emptyShard [(200, [5])]) 1 =
      ((newSpanLoop 1 emptyShard 1).1,
        withHotLarge (newSpanLoop 1 emptyShard 1).2 [(200, [5])]) :=
  ⟨by decide, C3_hotLarge_amended 1 emptyShard [(200, [5])] 1 (by decide)⟩

theorem C4_fallback_amended_witness :
    (1 < NPAGES) ∧
    (newSpanStep emptyShard 1).1 = NSRes.retry ∧
    (newSpanStep emptyShard 1).2.sysCalls = emptyShard.sysCalls ++ [NPAGES - 1] ∧
    (newSpanStep emptyShard 1).2.hot (NPAGES - 1) = [emptyShard.nextId] :=
  ⟨by decide,
   (C4_fallback_amended emptyShard 1 (by decide) (fun _ _ _ => rfl) (fun _ _ _ => rfl) rfl).1,
   (C4_fallback_amended emptyShard 1 (by decide) (fun _ _ _ => rfl) (fun _ _ _ => rfl) rfl).2.1,
   (C4_fallback_amended emptyShard 1 (by decide) (fun _ _ _ => rfl) (fun _ _ _ => rfl) rfl).2.2.2.1⟩

theorem pmSetRange_in :
    ∀ (k : Nat) (pm : Nat → Option Nat) (base id p : Nat),
      base ≤ p → p < base + k → pmSetRange pm base k id p = some id := by
  intro k
  induction k with
  | zero => intro pm base id p h1 h2; omega
  | succ k ih =>
    intro pm base id p h1 h2
    show pmapSet (pmSetRange pm base k id) (base + k) id p = some id
    unfold pmapSet
    by_cases hp : p = base + k
    · rw [if_pos hp]
    · rw [if_neg hp]
      exact ih pm base id p h1 (by omega)

theorem allocFromHotList_reg (s : PH) (i k : Nat) (id : Nat) (s' : PH)
    (h : allocFromHotList s i k = (some id, s')) :
    (s'.spans id).n ≤ k ∧
    ∀ p, (s'.spans id).pageId ≤ p → p < (s'.spans id).pageId + k →
      s'.pageMap p = some id := by
  unfold allocFromHotList at h
  rcases hl : s.hot i with _ | ⟨id0, rest⟩
  · rw [hl] at h
    simp at h
  · rw [hl] at h
    simp only [Prod.mk.injEq, Option.some.injEq] at h
    obtain ⟨h1, h2⟩ := h
    subst h1
    subst h2
    by_cases hc : (s.spans id0).n > k
    · simp only [if_pos hc, spansUpd, eq_self_iff_true, if_true]
      refine ⟨le_refl k, ?_⟩
      intro p hp1 hp2
      exact pmSetRange_in k _ _ id0 p hp1 hp2
    · simp only [if_neg hc, spansUpd, eq_self_iff_true, if_true]
      refine ⟨by omega, ?_⟩
      intro p hp1 hp2
      exact pmSetRange_in k _ _ id0 p hp1 hp2

theorem allocFromColdList_reg (s : PH) (i k : Nat) (id : Nat) (s' : PH)
    (h : allocFromColdList s i k = (some id, s')) :
    (s'.spans id).n ≤ k ∧
    ∀ p, (s'.spans id).pageId ≤ p → p < (s'.spans id).pageId + k →
      s'.pageMap p = some id := by
  unfold allocFromColdList at h
  rcases hl : s.cold i with _ | ⟨id0, rest⟩
  · rw [hl] at h
    simp at h
  · rw [hl] at h
    simp only [Prod.mk.injEq, Option.some.injEq] at h
    obtain ⟨h1, h2⟩ := h
    subst h1
    subst h2
    by_cases hc : (s.spans id0).n > k
    · simp only [if_pos hc, spansUpd, eq_self_iff_true, if_true]
      refine ⟨le_refl k, ?_⟩
      intro p hp1 hp2
      exact pmSetRange_in k _ _ id0 p hp1 hp2
    · simp only [if_neg hc, spansUpd, eq_self_iff_true, if_true]
      refine ⟨by omega, ?_⟩
      intro p hp1 hp2
      exact pmSetRange_in k _ _ id0 p hp1 hp2

theorem allocFromMap_reg (s : PH) (e : Nat × List Nat) (k : Nat) (isCold : Bool)
    (id : Nat) (s' : PH)
    (h : allocFromMap s e k isCold = (some id, s')) :
    (s'.spans id).n ≤ k ∧
    ∀ p, (s'.spans id).pageId ≤ p → p < (s'.spans id).pageId + k →
      s'.pageMap p = some id := by
  unfold allocFromMap at h
  cases isCold with
  | true =>
    rcases he : e.2 with _ | ⟨id0, rest⟩
    · rw [he] at h
      simp at h
    · rw [he] at h
      simp only [Prod.mk.injEq, Option.some.injEq, eq_self_iff_true, if_true] at h
      obtain ⟨h1, h2⟩ := h
      subst h1
      subst h2
      by_cases hc : (s.spans id0).n > k
      · simp only [if_pos hc, spansUpd, eq_self_iff_true, if_true]
        refine ⟨le_refl k, ?_⟩
        intro p hp1 hp2
        exact pmSetRange_in k _ _ id0 p hp1 hp2
      · simp only [if_neg hc, spansUpd, eq_self_iff_true, if_true]
        refine ⟨by omega, ?_⟩
        intro p hp1 hp2
        exact pmSetRange_in k _ _ id0 p hp1 hp2
  | false =>
    rcases he : e.2 with _ | ⟨id0, rest⟩
    · rw [he] at h
      simp at h
    · rw [he] at h
      simp only [Prod.mk.injEq, Option.some.injEq, Bool.false_eq_true, if_false] at h
      obtain ⟨h1, h2⟩ := h
      subst h1
      subst h2
      by_cases hc : (s.spans id0).n > k
      · simp only [if_pos hc, spansUpd, eq_self_iff_true, if_true, Bool.false_eq_true, if_false]
        refine ⟨le_refl k, ?_⟩
        intro p hp1 hp2
        exact pmSetRange_in k _ _ id0 p hp1 hp2
      · simp only [if_neg hc, spansUpd, eq_self_iff_true, if_true, Bool.false_eq_true, if_false]
        refine ⟨by omega, ?_⟩
        intro p hp1 hp2
        exact pmSetRange_in k _ _ id0 p hp1 hp2

theorem newSpanFallback_reg (s : PH) (k : Nat) (id : Nat) (s' : PH)
    (h : newSpanFallback s k = (NSRes.done id, s')) :
    (s'.spans id).n ≤ k ∧
    ∀ p, (s'.spans id).pageId ≤ p → p < (s'.spans id).pageId + k →
      s'.pageMap p = some id := by
  unfold newSpanFallback at h
  by_cases hk : k ≥ NPAGES
  · rw [if_pos hk] at h
    simp only [Prod.mk.injEq, NSRes.done.injEq] at h
    obtain ⟨h1, h2⟩ := h
    subst h1
    subst h2
    simp only [spansUpd, eq_self_iff_true, if_true]
    refine ⟨le_refl k, ?_⟩
    intro p hp1 hp2
    exact pmSetRange_in k _ _ _ p hp1 hp2
  · rw [if_neg hk] at h
    simp at h

/-! ## CentralCache (CentralCache.cpp) and ThreadCache (ThreadCache.h),
list-level model

Free objects are addresses (`Nat`); an object free list is the list of
its addresses in chain order (the pointer-level next-word encoding of
these chains is studied by the `FreeList` section above).  The span's
`_freeList` lives in `SpanD.freeObjs`.  A central-cache bucket is the
list of span identifiers it rings together. -/

/-- `CalculateFetchBatchSize(aligned_size)` from CentralCache.cpp. -/
def calculateFetchBatchSize (aligned : Nat) : Nat :=
  let num := MAX_BYTES / aligned
  let num := if num = 0 then 1 else num
  if num > 512 then 512 else num

/-- `CalculatePageNeed(aligned_size)` from CentralCache.cpp. -/
def calculatePageNeed (aligned : Nat) : Nat :=
  let num := calculateFetchBatchSize aligned
  let npage := (num * aligned) >>> PAGE_SHIFT
  if npage = 0 then 1 else npage

/-- Per-class `FreeList` of a ThreadCache at list level: the objects it
holds plus the slow-start fields `_maxSize` (initially 1) and `_maxNum`
(set to `NumMoveSize(i)` by the ThreadCache constructor). -/
structure FreeListT where
  objs : List Nat := []
  maxSize : Nat := 1
  maxNum : Nat := 0
  deriving DecidableEq

/-- The per-thread cache: its `MAX_NFREELISTS` free lists. -/
structure TCState where
  lists : Nat → FreeListT

/-- The central cache: one bucket (`SpanList`) of span ids per class. -/
structure CCState where
  buckets : Nat → List Nat

/-- Combined allocator state for the facade pipeline. -/
structure AState where
  tc : TCState
  cc : CCState
  ph : PH

/-- Update one free list of a thread cache. -/
def tcListUpd (t : TCState) (i : Nat) (fl : FreeListT) : TCState :=
  ⟨fun j => if j = i then fl else t.lists j⟩

/-- `ThreadCache::ThreadCache()`: every list starts with `_maxSize = 1`
and `_maxNum = NumMoveSize(i)`. -/
def freshThreadCache : TCState :=
  ⟨fun i => { maxNum := numMoveSize i }⟩

/-- The slicing loop of `CentralCache::GetOneSpan`: collect
`cur, cur + aligned, ...` while `cur ≤ endp` (`fuel` bounds the byte
count and dominates the iteration count). -/
def carve (aligned : Nat) : Nat → Nat → Nat → List Nat
  | _, _, 0 => []
  | cur, endp, fuel + 1 =>
    if cur ≤ endp then cur :: carve aligned (cur + aligned) endp fuel else []

/-- `CentralCache::GetOneSpan(bucket, size)`: return the first span of
the bucket with a non-empty free list; otherwise round the size up,
fetch `CalculatePageNeed` pages from the page heap, slice the new span
into `aligned`-byte objects, and push it at the front of the bucket. -/
def ccGetOneSpan (fuel : Nat) (st : AState) (ind size : Nat) : Option Nat × AState :=
  match (st.cc.buckets ind).find? (fun id => !((st.ph.spans id).freeObjs.isEmpty)) with
  | some id => (some id, st)
  | none =>
    let aligned := roundUp size
    let kPages := calculatePageNeed aligned
    match pageHeapNewSpan fuel st.ph kPages with
    | (none, ph1) => (none, { st with ph := ph1 })
    | (some id, ph1) =>
      let sp := ph1.spans id
      let start := sp.pageId <<< PAGE_SHIFT
      let bytes := sp.n <<< PAGE_SHIFT
      let objs := start :: carve aligned (start + aligned) (start + bytes - aligned) bytes
      let sp1 := { sp with isUse := true, objSize := aligned, freeObjs := objs }
      let ph2 := { ph1 with spans := spansUpd ph1.spans id sp1 }
      (some id,
       { st with
         ph := ph2
         cc := ⟨fun j => if j = ind then id :: st.cc.buckets j else st.cc.buckets j⟩ })

/-- `CentralCache::FetchRangeObj(start, end, n, size)`: take up to `n`
objects (at least one — the walk starts at the head) from the span's
free list and charge them to its `_useCount`; returns the taken chain. -/
def ccFetchRangeObj (fuel : Nat) (st : AState) (n size : Nat) : List Nat × AState :=
  let ind := index size
  match ccGetOneSpan fuel st ind size with
  | (none, st1) => ([], st1)
  | (some id, st1) =>
    let sp := st1.ph.spans id
    let actual := min (max n 1) sp.freeObjs.length
    let taken := sp.freeObjs.take actual
    let sp1 := { sp with
      freeObjs := sp.freeObjs.drop actual
      useCount := sp.useCount + actual }
    (taken, { st1 with ph := { st1.ph with spans := spansUpd st1.ph.spans id sp1 } })

/-- The slow-start batch computation of
`ThreadCache::FetchFromCentralCache`:
`min(list.MaxSize() << 1, list.MaxNum())`. -/
def slowStartBatch (m maxNum : Nat) : Nat := min (m <<< 1) maxNum

/-- `ThreadCache::FetchFromCentralCache(index, size)`: double the
slow-start watermark (clamped at `_maxNum`), request that many objects
from the central cache, hand the first to the caller and splice the
rest onto the local list. -/
def fetchFromCentralCache (fuel : Nat) (st : AState) (ind size : Nat) :
    Option Nat × AState :=
  let l := st.tc.lists ind
  let batchNum := slowStartBatch l.maxSize l.maxNum
  let st1 := { st with tc := tcListUpd st.tc ind { l with maxSize := batchNum } }
  match ccFetchRangeObj fuel st1 batchNum size with
  | ([], st2) => (none, st2)
  | (ret :: remain, st2) =>
    if remain.isEmpty then (some ret, st2)
    else
      let l2 := st2.tc.lists ind
      (some ret, { st2 with tc := tcListUpd st2.tc ind { l2 with objs := remain ++ l2.objs } })

/-- `ThreadCache::Allocate(size)`: pop from the local list when it has
objects, otherwise refill from the central cache. -/
def threadAllocate (fuel : Nat) (st : AState) (size : Nat) : Option Nat × AState :=
  let ind := index size
  let l := st.tc.lists ind
  match l.objs with
  | o :: rest => (some o, { st with tc := tcListUpd st.tc ind { l with objs := rest } })
  | [] => fetchFromCentralCache fuel st ind size

/-- `KzAlloc::malloc(size)` from ConcurrentAlloc.h: requests over
`MAX_BYTES` go straight to the page heap; everything else — including
`size = 0` — goes to the thread cache. -/
def kzMalloc (fuel : Nat) (st : AState) (size : Nat) : Option Nat × AState :=
  if size > MAX_BYTES then
    let aligned := roundUp size
    let kPages := aligned >>> PAGE_SHIFT
    match pageHeapNewSpan fuel st.ph kPages with
    | (none, ph1) => (none, { st with ph := ph1 })
    | (some id, ph1) =>
      let sp := ph1.spans id
      let ph2 := { ph1 with
        spans := spansUpd ph1.spans id { sp with objSize := aligned, isUse := true } }
      (some (sp.pageId <<< PAGE_SHIFT), { st with ph := ph2 })
  else threadAllocate fuel st size

theorem newSpanColdLarge_reg (s : PH) (k : Nat) (id : Nat) (s' : PH)
    (h : newSpanColdLarge s k = (NSRes.done id, s')) :
    (s'.spans id).n ≤ k ∧
    ∀ p, (s'.spans id).pageId ≤ p → p < (s'.spans id).pageId + k →
      s'.pageMap p = some id := by
  unfold newSpanColdLarge at h
  rcases hc : s.coldLarge with _ | ⟨e, rest⟩ <;> simp only [hc] at h
  · exact newSpanFallback_reg s k id s' h
  · rcases h2 : mapLowerBound (e :: rest) k with _ | e2 <;> simp only [h2] at h
    · exact newSpanFallback_reg s k id s' h
    · rcases ha : allocFromMap s e2 k true with ⟨r, s1⟩
      rw [ha] at h
      rcases r with _ | id2
      · simp at h
      · simp only [Prod.mk.injEq, NSRes.done.injEq] at h
        obtain ⟨h3, h4⟩ := h
        subst h3
        subst h4
        exact allocFromMap_reg s e2 k true _ _ ha

theorem newSpanCold_reg (s : PH) (k : Nat) (id : Nat) (s' : PH)
    (h : newSpanCold s k = (NSRes.done id, s')) :
    (s'.spans id).n ≤ k ∧
    ∀ p, (s'.spans id).pageId ≤ p → p < (s'.spans id).pageId + k →
      s'.pageMap p = some id := by
  unfold newSpanCold at h
  by_cases hk : k < NPAGES
  · rw [if_pos hk] at h
    rcases hl : s.cold k with _ | ⟨id0, rest⟩ <;> simp only [hl] at h
    · rcases h2 : firstNonEmptyCold s k with _ | i <;> simp only [h2] at h
      · exact newSpanColdLarge_reg s k id s' h
      · rcases ha : allocFromColdList s i k with ⟨r, s1⟩
        rw [ha] at h
        rcases r with _ | id2
        · simp at h
        · simp only [Prod.mk.injEq, NSRes.done.injEq] at h
          obtain ⟨h3, h4⟩ := h
          subst h3
          subst h4
          exact allocFromColdList_reg s i k _ _ ha
    · rcases ha : allocFromColdList s k k with ⟨r, s1⟩
      rw [ha] at h
      rcases r with _ | id2
      · simp at h
      · simp only [Prod.mk.injEq, NSRes.done.injEq] at h
        obtain ⟨h3, h4⟩ := h
        subst h3
        subst h4
        exact allocFromColdList_reg s k k _ _ ha
  · rw [if_neg hk] at h
    exact newSpanColdLarge_reg s k id s' h

theorem newSpanStep_reg (s : PH) (k : Nat) (id : Nat) (s' : PH)
    (h : newSpanStep s k = (NSRes.done id, s')) :
    (s'.spans id).n ≤ k ∧
    ∀ p, (s'.spans id).pageId ≤ p → p < (s'.spans id).pageId + k →
      s'.pageMap p = some id := by
  unfold newSpanStep at h
  by_cases hk : k < NPAGES
  · rw [if_pos hk] at h
    rcases hl : s.hot k with _ | ⟨id0, rest⟩ <;> simp only [hl] at h
    · rcases h2 : firstNonEmptyHot s k with _ | i <;> simp only [h2] at h
      · exact newSpanCold_reg s k id s' h
      · rcases ha : allocFromHotList s i k with ⟨r, s1⟩
        rw [ha] at h
        rcases r with _ | id2
        · simp at h
        · simp only [Prod.mk.injEq, NSRes.done.injEq] at h
          obtain ⟨h3, h4⟩ := h
          subst h3
          subst h4
          exact allocFromHotList_reg s i k _ _ ha
    · rcases ha : allocFromHotList s k k with ⟨r, s1⟩
      rw [ha] at h
      rcases r with _ | id2
      · simp at h
      · simp only [Prod.mk.injEq, NSRes.done.injEq] at h
        obtain ⟨h3, h4⟩ := h
        subst h3
        subst h4
        exact allocFromHotList_reg s k k _ _ ha
  · rw [if_neg hk] at h
    rcases h2 : mapLowerBound s.hotLarge k with _ | e2 <;> simp only [h2] at h
    · exact newSpanCold_reg s k id s' h
    · rcases ha : allocFromMap s e2 k false with ⟨r, s1⟩
      rw [ha] at h
      rcases r with _ | id2
      · simp at h
      · simp only [Prod.mk.injEq, NSRes.done.injEq] at h
        obtain ⟨h3, h4⟩ := h
        subst h3
        subst h4
        exact allocFromMap_reg s e2 k false _ _ ha

theorem newSpanLoop_reg :
    ∀ (fuel : Nat) (s : PH) (k id : Nat) (s' : PH),
      newSpanLoop fuel s k = (some id, s') →
      (s'.spans id).n ≤ k ∧
      ∀ p, (s'.spans id).pageId ≤ p → p < (s'.spans id).pageId + k →
        s'.pageMap p = some id := by
  intro fuel
  induction fuel with
  | zero =>
    intro s k id s' h
    simp [newSpanLoop] at h
  | succ fuel ih =>
    intro s k id s' h
    have h1 : (match newSpanStep s k with
        | (NSRes.done id, s') => (some id, s')
        | (NSRes.retry, s') => newSpanLoop fuel s' k) = (some id, s') := h
    rcases hs : newSpanStep s k with ⟨r, s1⟩
    rw [hs] at h1
    rcases r with id2 | _
    · simp only [Prod.mk.injEq, Option.some.injEq] at h1
      obtain ⟨h2, h3⟩ := h1
      subst h2
      subst h3
      exact newSpanStep_reg s k _ _ hs
    · exact ih s1 k id s' h1

theorem pageHeapNewSpan_reg (fuel : Nat) (s : PH) (k id : Nat) (s' : PH)
    (h : pageHeapNewSpan fuel s k = (some id, s')) :
    (s'.spans id).n ≤ k ∧
    ∀ p, (s'.spans id).pageId ≤ p → p < (s'.spans id).pageId + k →
      s'.pageMap p = some id := by
  unfold pageHeapNewSpan at h
  rcases hl : newSpanLoop fuel s k with ⟨r, s1⟩
  rw [hl] at h
  rcases r with _ | id2
  · simp at h
  · simp only [Prod.mk.injEq, Option.some.injEq] at h
    obtain ⟨h2, h3⟩ := h
    subst h2
    subst h3
    obtain ⟨hn, hreg⟩ := newSpanLoop_reg fuel s k _ s1 hl
    refine ⟨?_, ?_⟩
    · simpa [spansUpd] using hn
    · intro p hp1 hp2
      simp only [spansUpd, eq_self_iff_true, if_true] at hp1 hp2 ⊢
      exact hreg p hp1 hp2

/-- C6: after the CentralCache refill path (empty bucket) slices a span
freshly obtained from `new_span`, every page `p` in
`[page_id, page_id + n)` of that span maps to the span in the
RadixPageMap, so deallocation can find the owning span from any object
address inside it.  (The full registration is performed by the
`new_span` issue paths, which set every one of the `k` requested pages;
slicing changes no page-map entry and leaves `page_id`/`n` unchanged.) -/
theorem C6_refill_pages_registered (fuel : Nat) (st : AState) (ind size id : Nat)
    (st' : AState)
    (hcold : (st.cc.buckets ind).find?
      (fun id => !((st.ph.spans id).freeObjs.isEmpty)) = none)
    (h : ccGetOneSpan fuel st ind size = (some id, st')) :
    ∀ p, (st'.ph.spans id).pageId ≤ p →
      p < (st'.ph.spans id).pageId + (st'.ph.spans id).n →
      st'.ph.pageMap p = some id := by
  unfold ccGetOneSpan at h
  simp only [hcold] at h
  rcases hph : pageHeapNewSpan fuel st.ph (calculatePageNeed (roundUp size))
    with ⟨r, ph1⟩
  rw [hph] at h
  rcases r with _ | id2
  · simp at h
  · simp only [Prod.mk.injEq, Option.some.injEq] at h
    obtain ⟨h2, h3⟩ := h
    subst h2
    subst h3
    obtain ⟨hn, hreg⟩ := pageHeapNewSpan_reg fuel st.ph _ _ ph1 hph
    intro p hp1 hp2
    simp only [spansUpd, eq_self_iff_true, if_true] at hp1 hp2 ⊢
    exact hreg p hp1 (Nat.lt_of_lt_of_le hp2 (Nat.add_le_add_left hn _))

/-- An allocator state whose central-cache buckets are all empty and
whose page heap holds one free 32-page span (span 0, pages 300..331,
`hot_small[32]`). -/
def c6State : AState :=
  { tc := freshThreadCache
    cc := ⟨fun _ => []⟩
    ph := { spans := fun j => if j = 0 then { pageId := 300, n := 32, shardId := 1 } else {}
            nextId := 1
            live := [0]
            hot := fun i => if i = 32 then [0] else []
            cold := fun _ => []
            pageMap := fun _ => none
            totalFreePages := 32
            shardId := 1 } }

/-- Unfolding `index` to the scan state without forcing a kernel
evaluation at a literal argument. -/
theorem index_eq_scan (n : Nat) : index n = (sizeScan n).1 := rfl

theorem index_262144 : index 262144 = 263 := by
  rw [index_eq_scan]
  have h := sizeScan_final_idx
  rw [show MAX_BYTES = 262144 from rfl] at h
  exact h

/-- A `MAX_BYTES` request rounds up to itself. -/
theorem roundUp_262144 : roundUp 262144 = 262144 := by
  have h1 := roundUp_eq_blockSizeOf 262144 (le_of_eq (rfl : MAX_BYTES = 262144).symm)
  rw [index_262144, blockSizeOf_263] at h1
  exact h1

/-- The span as `GetOneSpan` slices it: marked in use, stamped with the
object size, its free list `start :: start + al :: ...` over the span's
bytes. -/
def slicedSpan (al : Nat) (sp : SpanD) : SpanD :=
  { sp with
    isUse := true
    objSize := al
    freeObjs := (sp.pageId <<< PAGE_SHIFT) ::
      carve al (sp.pageId <<< PAGE_SHIFT + al)
        (sp.pageId <<< PAGE_SHIFT + (sp.n <<< PAGE_SHIFT) - al)
        (sp.n <<< PAGE_SHIFT) }

/-- The allocator state after the refill path of `GetOneSpan`: the new
span sliced and pushed at the front of bucket `ind`. -/
def refillState (st : AState) (ind al id : Nat) (ph1 : PH) : AState :=
  { st with
    ph := { ph1 with spans := spansUpd ph1.spans id (slicedSpan al (ph1.spans id)) }
    cc := ⟨fun j => if j = ind then id :: st.cc.buckets j else st.cc.buckets j⟩ }

/-- Closed form of `GetOneSpan` on the refill path (no cached span has
free objects; `new_span` returns span `id` in heap state `ph1`). -/
theorem ccGetOneSpan_refill (fuel : Nat) (st : AState) (ind size al kp id : Nat)
    (ph1 : PH)
    (hfind : (st.cc.buckets ind).find?
      (fun id => !((st.ph.spans id).freeObjs.isEmpty)) = none)
    (hal : roundUp size = al)
    (hkp : calculatePageNeed al = kp)
    (hph : pageHeapNewSpan fuel st.ph kp = (some id, ph1)) :
    ccGetOneSpan fuel st ind size = (some id, refillState st ind al id ph1) := by
  unfold ccGetOneSpan
  rw [hfind]
  simp only [hal, hkp, hph]
  rfl

/-- The page-heap state after `new_span(32)` on `c6State` (the hot list
serves the request exactly). -/
def c6PH1 : PH := (pageHeapNewSpan 2 c6State.ph 32).2

/-- The allocator state after the refill `GetOneSpan(bucket 0, 262144)`
on `c6State` (one `MAX_BYTES` object needs 32 pages). -/
def c6After : AState := refillState c6State 0 262144 0 c6PH1

theorem C6_refill_pages_registered_witness :
    ((c6State.cc.buckets 0).find?
      (fun id => !((c6State.ph.spans id).freeObjs.isEmpty)) = none) ∧
    ccGetOneSpan 2 c6State 0 262144 = (some 0, c6After) ∧
    ∀ p, (c6After.ph.spans 0).pageId ≤ p →
        p < (c6After.ph.spans 0).pageId + (c6After.ph.spans 0).n →
        c6After.ph.pageMap p = some 0 := by
  have hfind : (c6State.cc.buckets 0).find?
      (fun id => !((c6State.ph.spans id).freeObjs.isEmpty)) = none := rfl
  have hph : pageHeapNewSpan 2 c6State.ph 32 = (some 0, c6PH1) := rfl
  have h : ccGetOneSpan 2 c6State 0 262144 = (some 0, c6After) :=
    ccGetOneSpan_refill 2 c6State 0 262144 262144 32 0 c6PH1 hfind
      roundUp_262144 rfl hph
  exact ⟨hfind, h, C6_refill_pages_registered 2 c6State 0 262144 0 c6After hfind h⟩

/-- An allocator state whose thread cache holds one ready object (at
address 4096) in the class-0 list. -/
def stockedState : AState :=
  { tc := ⟨fun i => if i = 0 then { objs := [4096] } else {}⟩
    cc := ⟨fun _ => []⟩
    ph := emptyShard }

/-- C2 counterexample: `KzAlloc::malloc(0)` on a thread cache whose
class-0 list is stocked returns that block, not null — size 0 is
treated as a smallest-class request, not rejected. -/
theorem C2_malloc_zero_counterexample :
    (kzMalloc 1 stockedState 0).1 = some 4096 ∧
    (kzMalloc 1 stockedState 0).1 ≠ none := by
  refine ⟨rfl, ?_⟩
  intro h
  rw [show (kzMalloc 1 stockedState 0).1 = some 4096 from rfl] at h
  exact Option.noConfusion h

/-- C2 (amended): `malloc(0)` is routed to `ThreadCache::Allocate` like
any small request (it is not rejected), lands in class `Index(0) = 0`,
and returns the first object of that list when one is cached. -/
theorem C2_malloc_zero_amended (fuel : Nat) (st : AState) (o : Nat)
    (rest : List Nat)
    (h : (st.tc.lists (index 0)).objs = o :: rest) :
    kzMalloc fuel st 0 = threadAllocate fuel st 0 ∧
    (kzMalloc fuel st 0).1 = some o := by
  have hroute : kzMalloc fuel st 0 = threadAllocate fuel st 0 := by
    unfold kzMalloc
    rw [if_neg (by decide : ¬(0 > MAX_BYTES))]
  refine ⟨hroute, ?_⟩
  rw [hroute]
  unfold threadAllocate
  simp only [h]

theorem C2_malloc_zero_amended_witness :
    (stockedState.tc.lists (index 0)).objs = 4096 :: [] ∧
    kzMalloc 1 stockedState 0 = threadAllocate 1 stockedState 0 ∧
    (kzMalloc 1 stockedState 0).1 = some 4096 := by
  have h : (stockedState.tc.lists (index 0)).objs = 4096 :: [] := rfl
  exact ⟨h, (C2_malloc_zero_amended 1 stockedState 4096 [] h).1,
    (C2_malloc_zero_amended 1 stockedState 4096 [] h).2⟩

/-- Memory in which every next-pointer is null. -/
def m9 : Mem := fun _ => 0

/-- A one-element free list holding node 8. -/
def fl9 : FreeListState := { head := 8, tail := 8, size := 1 }

/-- C9 counterexample: `Push` alone does not preserve the bookkeeping
invariant — pushing a node that is already on the list (here the head
itself) creates a pointer cycle, so no null-terminated chain from
`_head` exists at all, while `_size` was bumped to 2.  `Push` needs the
precondition that the pushed node is non-null and not already
reachable. -/
theorem C9_push_selfloop_counterexample :
    FLInv m9 fl9 ∧ ¬ FLInv (flPush m9 fl9 8).1 (flPush m9 fl9 8).2 := by
  constructor
  · refine ⟨[8], ?_, rfl, rfl⟩
    exact IsChain.cons (by decide) IsChain.nil
  · rintro ⟨l, hch, hsz, htl⟩
    have hhd : (flPush m9 fl9 8).2.head = 8 := rfl
    rw [hhd] at hch
    obtain ⟨l', he, hch'⟩ := isChain_inv_ne _ 8 l hch (by decide)
    have hm : (flPush m9 fl9 8).1 8 = 8 := rfl
    rw [hm] at hch'
    have := isChain_det _ 8 l l' hch hch'
    rw [he] at this
    exact absurd (congrArg List.length this) (by simp)

/-- C9 (amended): the bookkeeping invariant — `_size` counts the nodes
reachable from `_head` and `_tail` is the last one (null exactly when
empty) — is preserved by `Pop` on a non-empty list and by `PopRange`
with `1 ≤ n ≤ _size` as claimed; `Push` additionally needs the pushed
node to be non-null and not already reachable, and `PushRange`
additionally needs its `n`-node chain to be non-empty and disjoint from
the nodes already reachable. -/
theorem C9_freelist_invariant_amended (m : Mem) (fl : FreeListState)
    (l : List Nat) (hch : IsChain m fl.head l) (hsz : fl.size = l.length)
    (htl : fl.tail = lastOr0 l) :
    (∀ obj, obj ≠ 0 → obj ∉ l →
      FLInv (flPush m fl obj).1 (flPush m fl obj).2) ∧
    (fl.head ≠ 0 → FLInv (flPop m fl).2.1 (flPop m fl).2.2) ∧
    (∀ start endp n c, IsChain m start c → c ≠ [] → c.length = n →
      lastOr0 c = endp → (∀ x ∈ c, x ∉ l) →
      FLInv (flPushRange m fl start endp n).1 (flPushRange m fl start endp n).2) ∧
    (∀ n, 1 ≤ n → n ≤ fl.size →
      FLInv (flPopRange m fl n).2.1 (flPopRange m fl n).2.2) :=
  ⟨fun obj h1 h2 => flPush_inv m fl obj l hch hsz htl h1 h2,
   fun h => flPop_inv m fl l hch hsz htl h,
   fun start endp n c hc h1 h2 h3 h4 =>
     flPushRange_inv m fl start endp n l c hch hsz htl hc h1 h2 h3 h4,
   fun n h1 h2 => flPopRange_inv m fl n l hch hsz htl h1 h2⟩

theorem C9_freelist_invariant_amended_witness :
    (IsChain m9 fl9.head [8] ∧ fl9.size = [8].length ∧
      fl9.tail = lastOr0 [8] ∧ fl9.head ≠ 0) ∧
    FLInv (flPop m9 fl9).2.1 (flPop m9 fl9).2.2 := by
  have hch : IsChain m9 fl9.head [8] := IsChain.cons (by decide) IsChain.nil
  exact ⟨⟨hch, rfl, rfl, by decide⟩,
    (C9_freelist_invariant_amended m9 fl9 [8] hch rfl rfl).2.1 (by decide)⟩

/-- Invariant `is_cold = true → is_in_use = false` over a span store. -/
def ColdInvF (f : Nat → SpanD) : Prop :=
  ∀ j, (f j).isCold = true → (f j).isUse = false

/-- The C7 invariant on a shard state. -/
def ColdInv (s : PH) : Prop := ColdInvF s.spans

/-- Every span parked in the hot containers is free (not in use).  This
is the ambient fact the reclaim loops rely on when they move hot spans
to the cold side. -/
def HotFree (s : PH) : Prop :=
  (∀ i id, id ∈ s.hot i → (s.spans id).isUse = false) ∧
  (∀ e ∈ s.hotLarge, ∀ id ∈ e.2, (s.spans id).isUse = false)

theorem coldInvF_upd (f : Nat → SpanD) (id : Nat) (v : SpanD)
    (h : ColdInvF f) (hv : v.isCold = true → v.isUse = false) :
    ColdInvF (spansUpd f id v) := by
  intro j
  unfold spansUpd
  by_cases hj : j = id
  · rw [if_pos hj]; exact hv
  · rw [if_neg hj]; exact h j

theorem allocFromHotList_cold (s : PH) (i k : Nat) (r : Option Nat) (s' : PH)
    (hres : allocFromHotList s i k = (r, s')) (h : ColdInv s) : ColdInv s' := by
  unfold allocFromHotList at hres
  rcases hl : s.hot i with _ | ⟨id, rest⟩ <;> simp only [hl] at hres
  · injection hres with h1 h2
    subst h2
    exact h
  · by_cases hnk : (s.spans id).n > k <;> simp only [hnk, if_pos, if_neg, if_true,
      if_false, eq_self_iff_true, not_true, not_false_iff] at hres
    · injection hres with h1 h2
      subst h2
      exact coldInvF_upd _ id _
        (coldInvF_upd _ id _
          (coldInvF_upd _ s.nextId _ h (fun hc => Bool.noConfusion hc))
          (h id))
        (fun hc => Bool.noConfusion hc)
    · injection hres with h1 h2
      subst h2
      exact coldInvF_upd _ id _ h (fun hc => Bool.noConfusion hc)

theorem allocFromColdList_cold (s : PH) (i k : Nat) (r : Option Nat) (s' : PH)
    (hres : allocFromColdList s i k = (r, s')) (h : ColdInv s) : ColdInv s' := by
  unfold allocFromColdList at hres
  rcases hl : s.cold i with _ | ⟨id, rest⟩ <;> simp only [hl] at hres
  · injection hres with h1 h2
    subst h2
    exact h
  · by_cases hnk : (s.spans id).n > k <;> simp only [hnk, if_pos, if_neg, if_true,
      if_false, eq_self_iff_true, not_true, not_false_iff] at hres
    · injection hres with h1 h2
      subst h2
      exact coldInvF_upd _ id _
        (coldInvF_upd _ id _
          (coldInvF_upd _ s.nextId _ h (fun _ => rfl))
          (h id))
        (fun hc => Bool.noConfusion hc)
    · injection hres with h1 h2
      subst h2
      exact coldInvF_upd _ id _ h (fun hc => Bool.noConfusion hc)

theorem allocFromMap_coldInv (s : PH) (e : Nat × List Nat) (k : Nat)
    (b : Bool) (r : Option Nat) (s' : PH)
    (hres : allocFromMap s e k b = (r, s')) (h : ColdInv s) : ColdInv s' := by
  unfold allocFromMap at hres
  rcases hl : e.2 with _ | ⟨id, rest⟩ <;> simp only [hl] at hres
  · cases b <;> simp only [Bool.false_eq_true, if_true, if_false] at hres <;>
      (injection hres with h1 h2; subst h2; exact h)
  · cases b <;>
      by_cases hnk : (s.spans id).n > k <;>
      simp only [hnk, if_pos, if_neg, if_true, if_false, eq_self_iff_true,
        not_true, not_false_iff, Bool.false_eq_true] at hres <;>
      injection hres with h1 h2 <;>
      subst h2
    · exact coldInvF_upd _ id _
        (coldInvF_upd _ id _
          (coldInvF_upd _ s.nextId _ h (fun _ => rfl))
          (h id))
        (fun hc => Bool.noConfusion hc)
    · exact coldInvF_upd _ id _ h (fun hc => Bool.noConfusion hc)
    · exact coldInvF_upd _ id _
        (coldInvF_upd _ id _
          (coldInvF_upd _ s.nextId _ h (fun _ => rfl))
          (h id))
        (fun hc => Bool.noConfusion hc)
    · exact coldInvF_upd _ id _ h (fun hc => Bool.noConfusion hc)

theorem newSpanFallback_cold (s : PH) (k : Nat) (r : NSRes) (s' : PH)
    (hres : newSpanFallback s k = (r, s')) (h : ColdInv s) : ColdInv s' := by
  unfold newSpanFallback at hres
  by_cases hk : k ≥ NPAGES <;> simp only [hk, if_pos, if_neg, if_true, if_false,
    not_true, not_false_iff] at hres <;> injection hres with h1 h2 <;> subst h2
  · exact coldInvF_upd _ s.nextId _ h (fun hc => Bool.noConfusion hc)
  · exact coldInvF_upd _ s.nextId _ h (fun hc => Bool.noConfusion hc)

theorem newSpanColdLarge_cold (s : PH) (k : Nat) (r : NSRes) (s' : PH)
    (hres : newSpanColdLarge s k = (r, s')) (h : ColdInv s) : ColdInv s' := by
  unfold newSpanColdLarge at hres
  rcases hc : s.coldLarge with _ | ⟨e, rest⟩ <;> simp only [hc] at hres
  · exact newSpanFallback_cold s k r s' hres h
  · rcases h2 : mapLowerBound (e :: rest) k with _ | e2 <;> simp only [h2] at hres
    · exact newSpanFallback_cold s k r s' hres h
    · rcases ha : allocFromMap s e2 k true with ⟨r2, s1⟩
      rw [ha] at hres
      rcases r2 with _ | id2 <;> injection hres with h1 h2 <;> subst h2 <;>
        exact allocFromMap_coldInv s e2 k true _ _ ha h

theorem newSpanCold_cold (s : PH) (k : Nat) (r : NSRes) (s' : PH)
    (hres : newSpanCold s k = (r, s')) (h : ColdInv s) : ColdInv s' := by
  unfold newSpanCold at hres
  by_cases hk : k < NPAGES
  · rw [if_pos hk] at hres
    rcases hl : s.cold k with _ | ⟨id0, rest⟩ <;> simp only [hl] at hres
    · rcases h2 : firstNonEmptyCold s k with _ | i <;> simp only [h2] at hres
      · exact newSpanColdLarge_cold s k r s' hres h
      · rcases ha : allocFromColdList s i k with ⟨r2, s1⟩
        rw [ha] at hres
        rcases r2 with _ | id2 <;> injection hres with h1 h2 <;> subst h2 <;>
          exact allocFromColdList_cold s i k _ _ ha h
    · rcases ha : allocFromColdList s k k with ⟨r2, s1⟩
      rw [ha] at hres
      rcases r2 with _ | id2 <;> injection hres with h1 h2 <;> subst h2 <;>
        exact allocFromColdList_cold s k k _ _ ha h
  · rw [if_neg hk] at hres
    exact newSpanColdLarge_cold s k r s' hres h

theorem newSpanStep_cold (s : PH) (k : Nat) (r : NSRes) (s' : PH)
    (hres : newSpanStep s k = (r, s')) (h : ColdInv s) : ColdInv s' := by
  unfold newSpanStep at hres
  by_cases hk : k < NPAGES
  · rw [if_pos hk] at hres
    rcases hl : s.hot k with _ | ⟨id0, rest⟩ <;> simp only [hl] at hres
    · rcases h2 : firstNonEmptyHot s k with _ | i <;> simp only [h2] at hres
      · exact newSpanCold_cold s k r s' hres h
      · rcases ha : allocFromHotList s i k with ⟨r2, s1⟩
        rw [ha] at hres
        rcases r2 with _ | id2 <;> injection hres with h1 h2 <;> subst h2 <;>
          exact allocFromHotList_cold s i k _ _ ha h
    · rcases ha : allocFromHotList s k k with ⟨r2, s1⟩
      rw [ha] at hres
      rcases r2 with _ | id2 <;> injection hres with h1 h2 <;> subst h2 <;>
        exact allocFromHotList_cold s k k _ _ ha h
  · rw [if_neg hk] at hres
    rcases h2 : mapLowerBound s.hotLarge k with _ | e2 <;> simp only [h2] at hres
    · exact newSpanCold_cold s k r s' hres h
    · rcases ha : allocFromMap s e2 k false with ⟨r2, s1⟩
      rw [ha] at hres
      rcases r2 with _ | id2 <;> injection hres with h1 h2 <;> subst h2 <;>
        exact allocFromMap_coldInv s e2 k false _ _ ha h

theorem newSpanLoop_cold :
    ∀ (fuel : Nat) (s : PH) (k : Nat) (r : Option Nat) (s' : PH),
      newSpanLoop fuel s k = (r, s') → ColdInv s → ColdInv s' := by
  intro fuel
  induction fuel with
  | zero =>
    intro s k r s' hres h
    unfold newSpanLoop at hres
    injection hres with h1 h2
    subst h2
    exact h
  | succ fuel ih =>
    intro s k r s' hres h
    have h1 : (match newSpanStep s k with
        | (NSRes.done id, s') => (some id, s')
        | (NSRes.retry, s') => newSpanLoop fuel s' k) = (r, s') := hres
    rcases hs : newSpanStep s k with ⟨r2, s1⟩
    rw [hs] at h1
    rcases r2 with id2 | _
    · injection h1 with ha hb
      subst hb
      exact newSpanStep_cold s k _ _ hs h
    · exact ih s1 k r s' h1 (newSpanStep_cold s k _ _ hs h)

theorem pageHeapNewSpan_cold (fuel : Nat) (s : PH) (k : Nat) (r : Option Nat)
    (s' : PH) (hres : pageHeapNewSpan fuel s k = (r, s')) (h : ColdInv s) :
    ColdInv s' := by
  unfold pageHeapNewSpan at hres
  rcases hl : newSpanLoop fuel s k with ⟨r2, s1⟩
  rw [hl] at hres
  have h1 := newSpanLoop_cold fuel s k _ s1 hl h
  rcases r2 with _ | id2 <;> injection hres with ha hb <;> subst hb
  · exact h1
  · exact coldInvF_upd _ id2 _ h1 (h1 id2)

theorem spansUpd_isUse_eq (f : Nat → SpanD) (id : Nat) (v : SpanD)
    (hv : v.isUse = (f id).isUse) (j : Nat) :
    (spansUpd f id v j).isUse = (f j).isUse := by
  unfold spansUpd
  by_cases hj : j = id
  · rw [if_pos hj, hj]; exact hv
  · rw [if_neg hj]

theorem releaseSpanToCold_cold (s : PH) (id : Nat)
    (hUse : (s.spans id).isUse = false) (h : ColdInv s) :
    ColdInv (releaseSpanToCold s id) := by
  unfold releaseSpanToCold
  by_cases hn : (s.spans id).n < NPAGES <;>
    simp only [hn, if_pos, if_neg, if_true, if_false, not_true,
      not_false_iff] <;>
    exact coldInvF_upd _ id _ h (fun _ => hUse)

theorem releaseSpanToCold_hotFree (s : PH) (id : Nat) (h : HotFree s) :
    HotFree (releaseSpanToCold s id) := by
  obtain ⟨h1, h2⟩ := h
  unfold releaseSpanToCold
  by_cases hn : (s.spans id).n < NPAGES <;>
    simp only [hn, if_pos, if_neg, if_true, if_false, not_true,
      not_false_iff] <;>
    refine ⟨fun i j hj => ?_, fun e he j hj => ?_⟩ <;>
    · show (spansUpd s.spans id
          { s.spans id with isCold := true } j).isUse = false
      rw [spansUpd_isUse_eq s.spans id
        { s.spans id with isCold := true } rfl j]
      first
        | exact h1 i j hj
        | exact h2 e he j hj

theorem mem_eraseId (l : List Nat) (id x : Nat) (h : x ∈ eraseId l id) :
    x ∈ l := List.mem_of_mem_filter h

/-- The merged record the left-coalescing step writes at `id`. -/
def mergeL (s : PH) (id lid : Nat) : SpanD :=
  { s.spans id with
    pageId := (s.spans lid).pageId
    n := (s.spans id).n + (s.spans lid).n }

/-- The merged record the right-coalescing step writes at `id`. -/
def mergeR (s : PH) (id rid : Nat) : SpanD :=
  { s.spans id with n := (s.spans id).n + (s.spans rid).n }

theorem coalesceLeft_inv :
    ∀ (fuel : Nat) (s : PH) (id : Nat), ColdInv s → HotFree s →
      ColdInv (coalesceLeft fuel s id) ∧ HotFree (coalesceLeft fuel s id) := by
  intro fuel
  induction fuel with
  | zero => intro s id h hf; exact ⟨h, hf⟩
  | succ fuel ih =>
    intro s id h hf
    unfold coalesceLeft
    rcases hpm : s.pageMap (wsub (s.spans id).pageId 1) with _ | lid <;>
      simp only [hpm]
    · exact ⟨h, hf⟩
    · by_cases hcond : (s.spans lid).isUse = true ∨ (s.spans lid).shardId ≠ s.shardId
      · rw [if_pos hcond]
        exact ⟨h, hf⟩
      · rw [if_neg hcond]
        by_cases hcold : (s.spans lid).isCold = true <;>
          [rw [if_pos hcold]; rw [if_neg hcold]] <;>
        · refine ih _ id (coldInvF_upd s.spans id (mergeL s id lid) h (h id))
            ⟨fun i j hj => ?_, fun e he j hj => ?_⟩
          · have hj2 : j ∈ s.hot i := mem_eraseId _ _ _ hj
            show (spansUpd s.spans id (mergeL s id lid) j).isUse = false
            rw [spansUpd_isUse_eq s.spans id (mergeL s id lid) rfl j]
            exact hf.1 i j hj2
          · have he2 : e ∈ s.hotLarge.map (fun e0 => (e0.1, eraseId e0.2 lid)) := he
            obtain ⟨e0, he0, heq⟩ := List.mem_map.mp he2
            have hj2 : j ∈ e0.2 := mem_eraseId _ _ _ (heq ▸ hj)
            show (spansUpd s.spans id (mergeL s id lid) j).isUse = false
            rw [spansUpd_isUse_eq s.spans id (mergeL s id lid) rfl j]
            exact hf.2 e0 he0 j hj2

theorem coalesceRight_inv :
    ∀ (fuel : Nat) (s : PH) (id : Nat), ColdInv s → HotFree s →
      ColdInv (coalesceRight fuel s id) ∧ HotFree (coalesceRight fuel s id) := by
  intro fuel
  induction fuel with
  | zero => intro s id h hf; exact ⟨h, hf⟩
  | succ fuel ih =>
    intro s id h hf
    unfold coalesceRight
    rcases hpm : s.pageMap ((s.spans id).pageId + (s.spans id).n) with _ | rid <;>
      simp only [hpm]
    · exact ⟨h, hf⟩
    · by_cases hcond : (s.spans rid).isUse = true ∨ (s.spans rid).shardId ≠ s.shardId
      · rw [if_pos hcond]
        exact ⟨h, hf⟩
      · rw [if_neg hcond]
        by_cases hcold : (s.spans rid).isCold = true <;>
          [rw [if_pos hcold]; rw [if_neg hcold]] <;>
        · refine ih _ id (coldInvF_upd s.spans id (mergeR s id rid) h (h id))
            ⟨fun i j hj => ?_, fun e he j hj => ?_⟩
          · have hj2 : j ∈ s.hot i := mem_eraseId _ _ _ hj
            show (spansUpd s.spans id (mergeR s id rid) j).isUse = false
            rw [spansUpd_isUse_eq s.spans id (mergeR s id rid) rfl j]
            exact hf.1 i j hj2
          · have he2 : e ∈ s.hotLarge.map (fun e0 => (e0.1, eraseId e0.2 rid)) := he
            obtain ⟨e0, he0, heq⟩ := List.mem_map.mp he2
            have hj2 : j ∈ e0.2 := mem_eraseId _ _ _ (heq ▸ hj)
            show (spansUpd s.spans id (mergeR s id rid) j).isUse = false
            rw [spansUpd_isUse_eq s.spans id (mergeR s id rid) rfl j]
            exact hf.2 e0 he0 j hj2

theorem reclaimLarge_inv :
    ∀ (fuel : Nat) (s : PH), ColdInv s → HotFree s →
      ColdInv (reclaimLarge fuel s) ∧ HotFree (reclaimLarge fuel s) := by
  intro fuel
  induction fuel with
  | zero => intro s h hf; exact ⟨h, hf⟩
  | succ fuel ih =>
    intro s h hf
    unfold reclaimLarge
    by_cases hthr : s.totalFreePages > s.releaseThreshold
    · rw [if_pos hthr]
      rcases hgl : s.hotLarge.getLast? with _ | e <;> simp only [hgl]
      · exact ⟨h, hf⟩
      · have hemem : e ∈ s.hotLarge := by
          obtain ⟨hne, heq⟩ :=
            List.mem_getLast?_eq_getLast (Option.mem_def.mpr hgl)
          rw [heq]
          exact List.getLast_mem hne
        rcases he2 : e.2 with _ | ⟨id, rest⟩ <;> simp only [he2]
        · refine ih _ h ⟨fun i j hj => hf.1 i j hj, fun e1 he1 j hj => ?_⟩
          have he1' : e1 ∈ mapEraseKey s.hotLarge e.1 := he1
          exact hf.2 e1 (List.mem_of_mem_filter he1') j hj
        · have hid : id ∈ e.2 := by rw [he2]; exact List.mem_cons_self id rest
          have hUse : (s.spans id).isUse = false := hf.2 e hemem id hid
          have hf1 : HotFree { s with hotLarge := mapUpdate s.hotLarge e.1 rest } := by
            refine ⟨fun i j hj => hf.1 i j hj, fun e1 he1 j hj => ?_⟩
            have he1' : e1 ∈ s.hotLarge.map
                (fun e0 => if e0.1 = e.1 then (e0.1, rest) else e0) := he1
            obtain ⟨e0, he0, heq⟩ := List.mem_map.mp he1'
            by_cases hk : e0.1 = e.1
            · rw [if_pos hk] at heq
              have hj2 : j ∈ rest := by rw [← heq] at hj; exact hj
              have hj3 : j ∈ e.2 := by
                rw [he2]; exact List.mem_cons_of_mem id hj2
              exact hf.2 e hemem j hj3
            · rw [if_neg hk] at heq
              subst heq
              exact hf.2 e0 he0 j hj
          exact ih _ (releaseSpanToCold_cold _ id hUse h)
            (releaseSpanToCold_hotFree _ id hf1)
    · rw [if_neg hthr]
      exact ⟨h, hf⟩

theorem reclaimSmallAt_inv :
    ∀ (fuel : Nat) (s : PH) (i : Nat), ColdInv s → HotFree s →
      ColdInv (reclaimSmallAt fuel s i) ∧ HotFree (reclaimSmallAt fuel s i) := by
  intro fuel
  induction fuel with
  | zero => intro s i h hf; exact ⟨h, hf⟩
  | succ fuel ih =>
    intro s i h hf
    unfold reclaimSmallAt
    by_cases hthr : s.totalFreePages > s.releaseThreshold
    · rw [if_pos hthr]
      rcases hl : s.hot i with _ | ⟨id, rest⟩ <;> simp only [hl]
      · exact ⟨h, hf⟩
      · have hUse : (s.spans id).isUse = false :=
          hf.1 i id (by rw [hl]; exact List.mem_cons_self id rest)
        have hf1 : HotFree { s with hot := listUpd s.hot i rest } := by
          refine ⟨fun i2 j hj => ?_, fun e he j hj => hf.2 e he j hj⟩
          have hj' : j ∈ listUpd s.hot i rest i2 := hj
          unfold listUpd at hj'
          by_cases hi : i2 = i
          · rw [if_pos hi] at hj'
            exact hf.1 i j (by rw [hl]; exact List.mem_cons_of_mem id hj')
          · rw [if_neg hi] at hj'
            exact hf.1 i2 j hj'
        exact ih _ i (releaseSpanToCold_cold _ id hUse h)
          (releaseSpanToCold_hotFree _ id hf1)
    · rw [if_neg hthr]
      exact ⟨h, hf⟩

theorem reclaimSmall_inv :
    ∀ (i : Nat) (s : PH), ColdInv s → HotFree s →
      ColdInv (reclaimSmall i s) ∧ HotFree (reclaimSmall i s) := by
  intro i
  induction i with
  | zero => intro s h hf; exact ⟨h, hf⟩
  | succ i ih =>
    intro s h hf
    unfold reclaimSmall
    obtain ⟨h1, hf1⟩ := reclaimSmallAt_inv ((s.hot (i + 1)).length) s (i + 1) h hf
    by_cases hthr : (reclaimSmallAt ((s.hot (i + 1)).length) s (i + 1)).totalFreePages ≤
        (reclaimSmallAt ((s.hot (i + 1)).length) s (i + 1)).releaseThreshold
    · rw [if_pos hthr]
      exact ⟨h1, hf1⟩
    · rw [if_neg hthr]
      exact ih _ h1 hf1

theorem releaseSomeSpans_inv (fuel : Nat) (s : PH) (h : ColdInv s)
    (hf : HotFree s) :
    ColdInv (releaseSomeSpans fuel s) ∧ HotFree (releaseSomeSpans fuel s) := by
  unfold releaseSomeSpans
  obtain ⟨h1, hf1⟩ := reclaimLarge_inv fuel s h hf
  by_cases hthr : (reclaimLarge fuel s).totalFreePages >
      (reclaimLarge fuel s).releaseThreshold
  · rw [if_pos hthr]
    exact reclaimSmall_inv (NPAGES - 1) _ h1 hf1
  · rw [if_neg hthr]
    exact ⟨h1, hf1⟩

theorem mapPushFront_mem :
    ∀ (mp : List (Nat × List Nat)) (k id : Nat) (e : Nat × List Nat),
      e ∈ mapPushFront mp k id → ∀ j ∈ e.2, j = id ∨ ∃ e0 ∈ mp, j ∈ e0.2 := by
  intro mp
  induction mp with
  | nil =>
    intro k id e he j hj
    simp only [mapPushFront, List.mem_singleton] at he
    subst he
    simp only [List.mem_singleton] at hj
    exact Or.inl hj
  | cons e1 rest ih =>
    intro k id e he j hj
    unfold mapPushFront at he
    by_cases h1 : k < e1.1
    · rw [if_pos h1] at he
      rcases List.mem_cons.mp he with he2 | he2
      · subst he2
        simp only [List.mem_singleton] at hj
        exact Or.inl hj
      · rcases List.mem_cons.mp he2 with he3 | he3
        · subst he3
          exact Or.inr ⟨e, List.mem_cons_self e rest, hj⟩
        · exact Or.inr ⟨e, List.mem_cons_of_mem e1 he3, hj⟩
    · rw [if_neg h1] at he
      by_cases h2 : k = e1.1
      · rw [if_pos h2] at he
        rcases List.mem_cons.mp he with he2 | he2
        · subst he2
          rcases List.mem_cons.mp hj with hj2 | hj2
          · exact Or.inl hj2
          · exact Or.inr ⟨e1, List.mem_cons_self e1 rest, hj2⟩
        · exact Or.inr ⟨e, List.mem_cons_of_mem e1 he2, hj⟩
      · rw [if_neg h2] at he
        rcases List.mem_cons.mp he with he2 | he2
        · subst he2
          exact Or.inr ⟨e, List.mem_cons_self e rest, hj⟩
        · rcases ih k id e he2 j hj with hl | ⟨e0, he0, hj0⟩
          · exact Or.inl hl
          · exact Or.inr ⟨e0, List.mem_cons_of_mem e1 he0, hj0⟩

/-- The record `ReleaseSpan` writes back at `id` before re-listing it. -/
def freedSpan (sp : SpanD) : SpanD := { sp with isUse := false, isCold := false }

theorem releaseSpan_inv (fuel : Nat) (s : PH) (id : Nat) (hci : ColdInv s)
    (hhf : HotFree s) :
    ColdInv (releaseSpan fuel s id) ∧ HotFree (releaseSpan fuel s id) := by
  obtain ⟨hc1, hf1⟩ := coalesceLeft_inv fuel s id hci hhf
  obtain ⟨hc2, hf2⟩ := coalesceRight_inv fuel (coalesceLeft fuel s id) id hc1 hf1
  unfold releaseSpan
  simp only []
  generalize coalesceRight fuel (coalesceLeft fuel s id) id = s2 at hc2 hf2 ⊢
  have hc3 : ColdInvF (spansUpd s2.spans id (freedSpan (s2.spans id))) :=
    coldInvF_upd s2.spans id _ hc2 (fun hc => Bool.noConfusion hc)
  have huse_id : (spansUpd s2.spans id (freedSpan (s2.spans id)) id).isUse = false := by
    unfold spansUpd
    rw [if_pos rfl]
    rfl
  have huse_other : ∀ j, j ≠ id →
      (spansUpd s2.spans id (freedSpan (s2.spans id)) j).isUse = (s2.spans j).isUse := by
    intro j hj
    unfold spansUpd
    rw [if_neg hj]
  have hmem_use : ∀ j, (j = id ∨ (s2.spans j).isUse = false) →
      (spansUpd s2.spans id (freedSpan (s2.spans id)) j).isUse = false := by
    intro j hj
    rcases hj with hj | hj
    · subst hj; exact huse_id
    · by_cases hjid : j = id
      · subst hjid; exact huse_id
      · rw [huse_other j hjid]; exact hj
  by_cases hn : (s2.spans id).n < NPAGES <;>
    simp only [hn, if_pos, if_neg, if_true, if_false, not_true, not_false_iff]
  · have hf5 : HotFree
        { s2 with
          spans := spansUpd s2.spans id (freedSpan (s2.spans id))
          pageMap := pmapSet (pmapSet s2.pageMap (s2.spans id).pageId id)
            ((s2.spans id).pageId + (s2.spans id).n - 1) id
          hot := listUpd s2.hot (s2.spans id).n (id :: s2.hot (s2.spans id).n)
          totalFreePages := wadd s2.totalFreePages (s2.spans id).n } := by
      refine ⟨fun i j hj => ?_, fun e he j hj => ?_⟩
      · have hj' : j ∈ listUpd s2.hot (s2.spans id).n
            (id :: s2.hot (s2.spans id).n) i := hj
        unfold listUpd at hj'
        by_cases hi : i = (s2.spans id).n
        · rw [if_pos hi] at hj'
          rcases List.mem_cons.mp hj' with hj2 | hj2
          · exact hmem_use j (Or.inl hj2)
          · exact hmem_use j (Or.inr (hf2.1 _ j hj2))
        · rw [if_neg hi] at hj'
          exact hmem_use j (Or.inr (hf2.1 i j hj'))
      · exact hmem_use j (Or.inr (hf2.2 e he j hj))
    by_cases hthr : wadd s2.totalFreePages (s2.spans id).n > s2.releaseThreshold <;>
      simp only [hthr, if_pos, if_neg, if_true, if_false, not_true, not_false_iff]
    · exact releaseSomeSpans_inv fuel _ hc3 hf5
    · exact ⟨hc3, hf5⟩
  · have hf5 : HotFree
        { s2 with
          spans := spansUpd s2.spans id (freedSpan (s2.spans id))
          pageMap := pmapSet (pmapSet s2.pageMap (s2.spans id).pageId id)
            ((s2.spans id).pageId + (s2.spans id).n - 1) id
          hotLarge := mapPushFront s2.hotLarge (s2.spans id).n id
          totalFreePages := wadd s2.totalFreePages (s2.spans id).n } := by
      refine ⟨fun i j hj => ?_, fun e he j hj => ?_⟩
      · have hj' : j ∈ s2.hot i := hj
        exact hmem_use j (Or.inr (hf2.1 i j hj'))
      · have he' : e ∈ mapPushFront s2.hotLarge (s2.spans id).n id := he
        rcases mapPushFront_mem s2.hotLarge (s2.spans id).n id e he' j hj with
          hj2 | ⟨e0, he0, hj0⟩
        · exact hmem_use j (Or.inl hj2)
        · exact hmem_use j (Or.inr (hf2.2 e0 he0 j hj0))
    by_cases hthr : wadd s2.totalFreePages (s2.spans id).n > s2.releaseThreshold <;>
      simp only [hthr, if_pos, if_neg, if_true, if_false, not_true, not_false_iff]
    · exact releaseSomeSpans_inv fuel _ hc3 hf5
    · exact ⟨hc3, hf5⟩

/-- C7: the invariant `is_cold = true → is_in_use = false` holds for
every span record and is preserved by the span-state operations:
`new_span` (all issue, split and fallback paths, including the shard-id
stamp), `ReleaseSpanToCold` applied to a free span, and `ReleaseSpan`
(coalescing, re-listing and the reclaim-to-cold sweeps) on a state
whose hot containers hold only free spans. -/
theorem C7_cold_not_in_use (s : PH) (hci : ColdInv s) :
    (∀ fuel k r s', pageHeapNewSpan fuel s k = (r, s') → ColdInv s') ∧
    (∀ id, (s.spans id).isUse = false → ColdInv (releaseSpanToCold s id)) ∧
    (∀ fuel id, HotFree s →
      ColdInv (releaseSpan fuel s id) ∧ HotFree (releaseSpan fuel s id)) :=
  ⟨fun fuel k r s' hres => pageHeapNewSpan_cold fuel s k r s' hres hci,
   fun id hUse => releaseSpanToCold_cold s id hUse hci,
   fun fuel id hhf => releaseSpan_inv fuel s id hci hhf⟩

theorem C7_cold_not_in_use_witness :
    ColdInv emptyShard ∧ HotFree emptyShard ∧
    (emptyShard.spans 0).isUse = false ∧
    ColdInv (pageHeapNewSpan 2 emptyShard 1).2 ∧
    ColdInv (releaseSpanToCold emptyShard 0) ∧
    ColdInv (releaseSpan 1 emptyShard 0) := by
  have hci : ColdInv emptyShard := fun j hc => Bool.noConfusion hc
  have hhf : HotFree emptyShard :=
    ⟨fun i j hj => absurd hj (List.not_mem_nil j),
     fun e he => absurd he (List.not_mem_nil e)⟩
  exact ⟨hci, hhf, rfl,
    (C7_cold_not_in_use emptyShard hci).1 2 1 _ _ rfl,
    (C7_cold_not_in_use emptyShard hci).2.1 0 rfl,
    ((C7_cold_not_in_use emptyShard hci).2.2 1 0 hhf).1⟩

theorem index_16 : index 16 = 1 := rfl

theorem class_to_size_idx16 : class_to_size (index 16) = 16 := by
  rw [index_16, class_to_size_eq 1 (by norm_num [MAX_NFREELISTS])]
  rfl

theorem numMoveSize_idx16 : numMoveSize (index 16) = 16384 := by
  unfold numMoveSize
  rw [class_to_size_idx16]
  rfl

theorem freshThreadCache_maxNum (i : Nat) :
    (freshThreadCache.lists i).maxNum = numMoveSize i := rfl

theorem ccGetOneSpan_tc (fuel : Nat) (st : AState) (ind size : Nat) :
    (ccGetOneSpan fuel st ind size).2.tc = st.tc := by
  unfold ccGetOneSpan
  rcases hf : (st.cc.buckets ind).find?
      (fun id => !((st.ph.spans id).freeObjs.isEmpty)) with _ | id <;>
    simp only [hf]
  · rcases hph : pageHeapNewSpan fuel st.ph (calculatePageNeed (roundUp size))
      with ⟨r, ph1⟩
    rcases r with _ | id2 <;> rfl

theorem ccFetchRangeObj_tc (fuel : Nat) (st : AState) (n size : Nat) :
    (ccFetchRangeObj fuel st n size).2.tc = st.tc := by
  unfold ccFetchRangeObj
  simp only []
  have htc := ccGetOneSpan_tc fuel st (index size) size
  rcases hg : ccGetOneSpan fuel st (index size) size with ⟨r, st1⟩
  rw [hg] at htc
  rcases r with _ | id <;> exact htc

/-- The value the slow-start watermark takes after one
`FetchFromCentralCache(ind, size)` call: doubled and clamped. -/
theorem fetchFromCentralCache_maxSize (fuel : Nat) (st : AState)
    (ind size : Nat) :
    ((fetchFromCentralCache fuel st ind size).2.tc.lists ind).maxSize =
      min ((st.tc.lists ind).maxSize <<< 1) ((st.tc.lists ind).maxNum) := by
  unfold fetchFromCentralCache
  simp only []
  have htc := ccFetchRangeObj_tc fuel { st with tc := tcListUpd st.tc ind { st.tc.lists ind with maxSize := slowStartBatch (st.tc.lists ind).maxSize (st.tc.lists ind).maxNum } } (slowStartBatch (st.tc.lists ind).maxSize (st.tc.lists ind).maxNum) size
  rcases hcc : ccFetchRangeObj fuel { st with tc := tcListUpd st.tc ind { st.tc.lists ind with maxSize := slowStartBatch (st.tc.lists ind).maxSize (st.tc.lists ind).maxNum } } (slowStartBatch (st.tc.lists ind).maxSize (st.tc.lists ind).maxNum) size with ⟨objs, st2⟩
  rw [hcc] at htc
  rcases objs with _ | ⟨ret, remain⟩
  · show ((st2.tc.lists ind)).maxSize = _
    rw [htc]
    show (tcListUpd st.tc ind _ |>.lists ind).maxSize = _
    unfold tcListUpd
    simp only [eq_self_iff_true, if_true]
    rfl
  · by_cases hrem : remain.isEmpty <;>
      simp only [hrem, if_pos, if_neg, if_true, if_false, not_true,
        Bool.false_eq_true, not_false_iff]
    · show ((st2.tc.lists ind)).maxSize = _
      rw [htc]
      show (tcListUpd st.tc ind _ |>.lists ind).maxSize = _
      unfold tcListUpd
      simp only [eq_self_iff_true, if_true]
      rfl
    · show ((tcListUpd st2.tc ind { st2.tc.lists ind with objs := remain ++ (st2.tc.lists ind).objs }).lists ind).maxSize = _
      unfold tcListUpd
      simp only [eq_self_iff_true, if_true]
      show (st2.tc.lists ind).maxSize = _
      rw [htc]
      show (tcListUpd st.tc ind _ |>.lists ind).maxSize = _
      unfold tcListUpd
      simp only [eq_self_iff_true, if_true]
      rfl

/-- The slow-start watermark after `t` refills of a list with cap `M`
(`_maxSize` starts at 1; each refill doubles it, clamped at `M`).  The
value after refill `t` is also the batch requested by refill `t`. -/
def slowStartSeq (M : Nat) : Nat → Nat
  | 0 => 1
  | t + 1 => min (slowStartSeq M t <<< 1) M

theorem slowStartSeq_closed (t : Nat) (ht : 1 ≤ t) :
    slowStartSeq 16384 t = min (2 ^ t) 16384 := by
  induction t with
  | zero => omega
  | succ t ih =>
    rcases Nat.eq_or_lt_of_le ht with h1 | h1
    · rw [← h1]
      rfl
    · have ht1 : 1 ≤ t := by omega
      show min (slowStartSeq 16384 t <<< 1) 16384 = min (2 ^ (t + 1)) 16384
      rw [ih ht1, Nat.shiftLeft_eq]
      have hp : (2 : Nat) ^ (t + 1) = 2 ^ t * 2 := pow_succ 2 t
      have hq : (2 : Nat) ^ 1 = 2 := pow_one 2
      rw [hp, hq]
      generalize (2 : Nat) ^ t = a
      omega

/-- C5 counterexample: the first refill request of a freshly created
ThreadCache for the size-16 class asks for `min(1 << 1, 16384) = 2`
objects, not 1 — the doubling starts from the updated watermark, so the
batch sequence is 2, 4, 8, ..., never 1. -/
theorem C5_first_batch_counterexample :
    slowStartBatch (freshThreadCache.lists (index 16)).maxSize
      (freshThreadCache.lists (index 16)).maxNum = 2 ∧ (2 : Nat) ≠ 1 := by
  constructor
  · show min ((freshThreadCache.lists (index 16)).maxSize <<< 1)
      (freshThreadCache.lists (index 16)).maxNum = 2
    have h1 : (freshThreadCache.lists (index 16)).maxSize = 1 := rfl
    rw [h1, freshThreadCache_maxNum (index 16), numMoveSize_idx16]
    rfl
  · decide

/-- C5 (amended): a fresh ThreadCache has watermark `_maxSize = 1` and
cap `_maxNum = NumMoveSize(class_of(16)) = 16384` on the size-16 list;
every `FetchFromCentralCache` sets (and requests) the new watermark
`min(old << 1, cap)`; hence after `t ≥ 1` refills the watermark — and
the `t`-th batch — is `min(2^t, 16384)`: the sequence is 2, 4, 8, ...,
16384 (first batch 2, not 1), saturating at `NumMoveSize(class_of(16))`
from refill 14 on. -/
theorem C5_slow_start_amended :
    (freshThreadCache.lists (index 16)).maxSize = 1 ∧
    (freshThreadCache.lists (index 16)).maxNum = 16384 ∧
    (∀ fuel st size,
      ((fetchFromCentralCache fuel st (index 16) size).2.tc.lists
          (index 16)).maxSize =
        min (((st.tc.lists (index 16)).maxSize) <<< 1)
          ((st.tc.lists (index 16)).maxNum)) ∧
    (∀ t, 1 ≤ t → slowStartSeq 16384 t = min (2 ^ t) 16384) ∧
    slowStartSeq 16384 1 = 2 ∧
    (∀ t, 14 ≤ t → slowStartSeq 16384 t = 16384) := by
  refine ⟨rfl, (freshThreadCache_maxNum (index 16)).trans numMoveSize_idx16,
    ?_, slowStartSeq_closed, rfl, ?_⟩
  · intro fuel st size
    exact fetchFromCentralCache_maxSize fuel st (index 16) size
  · intro t ht
    rw [slowStartSeq_closed t (by omega)]
    have h1 : (16384 : Nat) ≤ 2 ^ t := by
      calc (16384 : Nat) = 2 ^ 14 := by norm_num
        _ ≤ 2 ^ t := Nat.pow_le_pow_right (by norm_num) ht
    omega

end KzAlloc
